import Mathlib

/-!
Shallow embedding of the order-entry system's core (tasosiris/order-entry-system):
the account ledger (`src/app/accounts.py`), the risk checker
(`src/app/risk_management.py`), the Redis-side Lua matching script
(`MATCH_ORDERS_SCRIPT` in `src/app/redis_client.py`), and the matching engine
(`src/app/matching_engine.py`).

Modelling conventions:
* Python floats are embedded as `ℚ` (exact arithmetic); order/account/trade ids,
  symbols and account ids are `String`s.
* The Redis store is embedded as explicit association lists inside `EngineState`:
  the per-id order blobs (`oes:order:{id}`), the global order-id set
  (`oes:orders`), the per-symbol and per-account order-id sets, the trade log
  and the account ledger.  Wall-clock timestamps written by the code
  (`closed_at`) are modelled as a `Bool` stamp; `cancelled_at` takes the `now`
  argument of the cancel call.  Notification and pub/sub traffic, log lines and
  the per-account trade indices are not observable by any claim and are not
  modelled.
* Orders are embedded as a closed record with every field present; the
  defaulting that `submit_order` performs on missing dictionary keys
  (`filled_quantity = 0`, `status = open`, generated ids and timestamps) is
  assumed to have been applied, which is how every caller in the repository
  hands orders to the engine.
* Loops are embedded structurally (the Lua matching loop takes a fuel argument
  that its driver instantiates with an always-sufficient bound) so that every
  definition evaluates on concrete inputs.
-/

/-- Order side, the `type` field of an order (`"buy"` / `"sell"`). -/
inductive Side
  | buy
  | sell
deriving DecidableEq, Repr

/-- Order status strings of the source, as a closed type.  `opn` stands for the
source's `"open"` (a Lean keyword). -/
inductive OrderStatus
  | opn
  | partially_filled
  | filled
  | cancelled
  | rejected
  | pending
deriving DecidableEq, Repr

/-- Rendering of `OrderStatus` back to the source's status strings. -/
def status_str : OrderStatus → String
  | .opn => "open"
  | .partially_filled => "partially_filled"
  | .filled => "filled"
  | .cancelled => "cancelled"
  | .rejected => "rejected"
  | .pending => "pending"

/-- An order record (the JSON blob stored at `oes:order:{id}`), with the fields
the engine reads and writes. -/
structure Order where
  id : String
  account_id : String
  symbol : String
  side : Side
  order_type : String
  price : ℚ
  quantity : ℚ
  filled_quantity : ℚ
  status : OrderStatus
  timestamp : ℚ
  tif : String
  execution_price : Option ℚ
  reject_reason : Option String
  cancelled_at : Option ℚ
  closed_at : Bool
deriving DecidableEq, Repr

/-- A trade record (the JSON blob stored at `oes:trade:{id}`). -/
structure Trade where
  buy_order_id : String
  sell_order_id : String
  buy_account_id : String
  sell_account_id : String
  symbol : String
  price : ℚ
  quantity : ℚ
deriving DecidableEq, Repr

/-- A trading account (`TradingAccount` in `src/app/accounts.py`); the fields
not read by the engine (name, type, risk level, creation time) are omitted. -/
structure Account where
  account_id : String
  balance : ℚ
  active : Bool
deriving DecidableEq, Repr

/-- A position record stored in the `oes:accounts:positions:{acct}` hash. -/
structure Position where
  symbol : String
  quantity : ℚ
  avg_price : ℚ
deriving DecidableEq, Repr

/-- One entry of the append-only transaction list
(`oes:accounts:transactions:{acct}`); the free-form description is omitted. -/
structure Txn where
  account_id : String
  txn_type : String
  amount : ℚ
  balance_after : ℚ
deriving DecidableEq, Repr

/-- The ledger slice of the store: the `oes:accounts` hash, the per-account
position hashes (keyed by account id and symbol) and the transaction lists. -/
structure Ledger where
  accounts : List (String × Account)
  positions : List ((String × String) × Position)
  txns : List Txn
deriving DecidableEq, Repr

/-- Lookup in an association list (first binding wins, like a Redis hash with
distinct fields). -/
def alookup {κ α : Type} [DecidableEq κ] (k : κ) : List (κ × α) → Option α
  | [] => none
  | (k', v) :: l => if k' = k then some v else alookup k l

/-- Update or insert a binding in an association list. -/
def alset {κ α : Type} [DecidableEq κ] (k : κ) (v : α) : List (κ × α) → List (κ × α)
  | [] => [(k, v)]
  | (k', v') :: l => if k' = k then (k, v) :: l else (k', v') :: alset k v l

/-- Set-style add of a member to the list stored under a key (Redis `SADD`). -/
def idx_add (k v : String) (m : List (String × List String)) : List (String × List String) :=
  let cur := (alookup k m).getD []
  alset k (if v ∈ cur then cur else cur ++ [v]) m

/-- Set-style removal of a member from the list stored under a key (Redis `SREM`). -/
def idx_rem (k v : String) (m : List (String × List String)) : List (String × List String) :=
  match alookup k m with
  | none => m
  | some cur => alset k (cur.filter (fun x => x ≠ v)) m

/-- Membership-preserving add into a plain set-as-list (Redis `SADD` on a flat set). -/
def set_add (v : String) (s : List String) : List String :=
  if v ∈ s then s else s ++ [v]

/-- AccountManager.get_account: fetch an account blob from the accounts hash. -/
def get_account (L : Ledger) (account_id : String) : Option Account :=
  alookup account_id L.accounts

/-- AccountManager.get_position: fetch a position blob from the per-account hash. -/
def get_position (L : Ledger) (account_id symbol : String) : Option Position :=
  alookup (account_id, symbol) L.positions

/-- AccountManager.adjust_account_balance: add `amount` to the account's
balance and append a transaction; returns `false` and leaves the ledger
untouched when the account does not exist. -/
def adjust_account_balance (L : Ledger) (account_id : String) (amount : ℚ)
    (txn_type : String) : Bool × Ledger :=
  match get_account L account_id with
  | none => (false, L)
  | some a =>
    let new_balance := a.balance + amount
    let a' := { a with balance := new_balance }
    let t : Txn := { account_id := account_id, txn_type := txn_type,
                     amount := amount, balance_after := new_balance }
    (true, { L with accounts := alset account_id a' L.accounts, txns := L.txns ++ [t] })

/-- AccountManager.update_position: apply a signed quantity change to the
position of `(account_id, symbol)`.  An existing position has its quantity
shifted and, for buys with positive change, its average price re-weighted;
a missing position is created with `quantity := quantity_change` and
`avg_price := price` — also when `quantity_change` is negative. -/
def update_position (L : Ledger) (account_id symbol : String) (quantity_change : ℚ)
    (price : ℚ) (transaction_type : String) : Ledger :=
  match get_position L account_id symbol with
  | some p =>
    let new_quantity := p.quantity + quantity_change
    let avg_price :=
      if 0 < quantity_change ∧ transaction_type = "buy" then
        if 0 < new_quantity then
          (p.quantity * p.avg_price + quantity_change * price) / new_quantity
        else 0
      else p.avg_price
    let p' : Position := { p with quantity := new_quantity, avg_price := avg_price }
    { L with positions := alset (account_id, symbol) p' L.positions }
  | none =>
    let p' : Position := { symbol := symbol, quantity := quantity_change, avg_price := price }
    { L with positions := alset (account_id, symbol) p' L.positions }

/-- AccountManager.update_after_trade: debit the buyer and credit the seller by
`quantity * price`, each side's position being updated only when that side's
balance adjustment succeeded; the two sides are applied one after the other
with no rollback. -/
def update_after_trade (L : Ledger) (buy_account_id sell_account_id symbol : String)
    (quantity price : ℚ) : (Bool × Bool) × Ledger :=
  let trade_value := quantity * price
  let buyer := adjust_account_balance L buy_account_id (-trade_value) "trade"
  let L2 := if buyer.1 then
      update_position buyer.2 buy_account_id symbol quantity price "buy"
    else buyer.2
  let seller := adjust_account_balance L2 sell_account_id trade_value "trade"
  let L4 := if seller.1 then
      update_position seller.2 sell_account_id symbol (-quantity) price "sell"
    else seller.2
  ((buyer.1, seller.1), L4)

/-- AccountManager.can_trade: the pre-trade gate the matching engine calls.
It checks account existence and activity, sufficient funds for buys and
sufficient inventory for sells; it imposes no quantity bounds. -/
def can_trade (L : Ledger) (account_id symbol : String) (order_type : Side)
    (price quantity : ℚ) : Bool × String :=
  match get_account L account_id with
  | none => (false, "Account not found")
  | some a =>
    if !a.active then (false, "Account is not active")
    else if order_type = .buy ∧ a.balance < price * quantity then
      (false, "Insufficient funds ($" ++ toString a.balance ++ " available, $"
        ++ toString (price * quantity) ++ " required)")
    else if order_type = .sell ∧
        (match get_position L account_id symbol with
         | none => true
         | some p => decide (p.quantity < quantity)) = true then
      (false, "Insufficient position to sell")
    else (true, "Trade authorized")

/-- RiskManager default bound: maximum order quantity (`max_order_quantity`). -/
def risk_max_order_quantity : ℚ := 100000

/-- RiskManager default bound: minimum order quantity (`min_order_quantity`). -/
def risk_min_order_quantity : ℚ := 1

/-- RiskManager default bound: minimum limit price (`min_order_price`). -/
def risk_min_order_price : ℚ := 1 / 100

/-- RiskManager default bound: maximum order value (`max_order_value`). -/
def risk_max_order_value : ℚ := 1000000

/-- RiskManager.check_order as invoked on the order-book path for submissions
without an `account_id` (the branch calling `validate_order` is skipped there,
and an order with an `account_id` never reaches `check_order` because
`OrderBook.submit_order` delegates it to the matching engine instead). -/
def check_order (quantity price : ℚ) (order_type : String) : Bool × String :=
  if quantity < risk_min_order_quantity then
    (false, "Order quantity " ++ toString quantity ++ " is below minimum of "
      ++ toString risk_min_order_quantity)
  else if risk_max_order_quantity < quantity then
    (false, "Order quantity " ++ toString quantity ++ " exceeds maximum of "
      ++ toString risk_max_order_quantity)
  else if order_type = "limit" ∧ price < risk_min_order_price then
    (false, "Order price $" ++ toString price ++ " is below minimum of $"
      ++ toString risk_min_order_price)
  else if risk_max_order_value < quantity * price then
    (false, "Order value $" ++ toString (quantity * price) ++ " exceeds maximum of $"
      ++ toString risk_max_order_value)
  else (true, "Order approved")

/-- The engine-visible slice of the Redis store: per-id order blobs, the global
order-id set `oes:orders`, the per-symbol sets `oes:symbol:{sym}:orders`, the
per-account sets `oes:account:{acct}:orders`, the trade log and the ledger. -/
structure EngineState where
  store : List (String × Order)
  all_orders : List String
  symbol_orders : List (String × List String)
  account_orders : List (String × List String)
  trades : List Trade
  ledger : Ledger
deriving DecidableEq, Repr

/-- Write an order blob at key `oes:order:{id}` (Redis `SET`). -/
def store_set (st : EngineState) (oid : String) (o : Order) : EngineState :=
  { st with store := alset oid o st.store }

/-- Remove an order id from the global, per-symbol and per-account order sets
(the three `SREM` calls issued when a filled order is purged). -/
def idx_remove_all (st : EngineState) (symbol account_id oid : String) : EngineState :=
  { st with
    all_orders := st.all_orders.filter (fun x => x ≠ oid),
    symbol_orders := idx_rem symbol oid st.symbol_orders,
    account_orders := idx_rem account_id oid st.account_orders }

/-- Stable insertion step used by `sort_by_le`. -/
def insort {α : Type} (le : α → α → Bool) (a : α) : List α → List α
  | [] => [a]
  | b :: l => if le a b then a :: b :: l else b :: insort le a l

/-- Stable insertion sort with a non-strict comparator: the embedding of the
source's sorts (Python's `list.sort` is stable; the Lua `table.sort` comparators
used by the script order by the same keys). -/
def sort_by_le {α : Type} (le : α → α → Bool) : List α → List α
  | [] => []
  | a :: l => insort le a (sort_by_le le l)

/-- Buy-side ordering: price descending, then timestamp ascending. -/
def buy_order_le (a b : Order) : Bool :=
  decide (b.price < a.price) || (decide (a.price = b.price) && decide (a.timestamp ≤ b.timestamp))

/-- Sell-side ordering: price ascending, then timestamp ascending. -/
def sell_order_le (a b : Order) : Bool :=
  decide (a.price < b.price) || (decide (a.price = b.price) && decide (a.timestamp ≤ b.timestamp))

/-- Inner loop of `MATCH_ORDERS_SCRIPT` (Lua, `src/app/redis_client.py`): walk
the price-time-sorted buy and sell lists, stopping when prices no longer cross,
skipping the newer order of a same-account pair, and otherwise trading
`min(buy_remaining, sell_remaining)` at the sell order's price.  Fully filled
orders are stamped, written back and removed from all order sets; partially
filled orders are written back with the new `filled_quantity`.  The script's
`while` loop advances at least one index per iteration (`trade_quantity` is the
minimum of the two remainders, so at least one side reaches its full quantity);
the fuel argument makes that recursion structural and is instantiated by
`lua_match_orders` with a bound that the loop never exhausts. -/
def lua_loop (symbol : String) :
    Nat → EngineState → List Order → List Order → List Trade × EngineState
  | 0, st, _, _ => ([], st)
  | _ + 1, st, [], _ => ([], st)
  | _ + 1, st, _ :: _, [] => ([], st)
  | fuel + 1, st, b :: bs, s :: ss =>
    if b.price < s.price then ([], st)
    else if b.account_id = s.account_id then
      if s.timestamp < b.timestamp then lua_loop symbol fuel st bs (s :: ss)
      else lua_loop symbol fuel st (b :: bs) ss
    else
      let buy_remaining := b.quantity - b.filled_quantity
      let sell_remaining := s.quantity - s.filled_quantity
      let trade_quantity := min buy_remaining sell_remaining
      let t : Trade := { buy_order_id := b.id, sell_order_id := s.id,
                         buy_account_id := b.account_id, sell_account_id := s.account_id,
                         symbol := symbol, price := s.price, quantity := trade_quantity }
      let st1 := { st with trades := st.trades ++ [t] }
      let new_buy_filled := b.filled_quantity + trade_quantity
      let new_sell_filled := s.filled_quantity + trade_quantity
      if b.quantity ≤ new_buy_filled then
        let b' : Order := { b with status := .filled, filled_quantity := b.quantity,
                                   closed_at := true }
        let st2 := store_set (idx_remove_all st1 symbol b.account_id b.id) b.id b'
        if s.quantity ≤ new_sell_filled then
          let s' : Order := { s with status := .filled, filled_quantity := s.quantity,
                                     closed_at := true }
          let st3 := store_set (idx_remove_all st2 symbol s.account_id s.id) s.id s'
          let r := lua_loop symbol fuel st3 bs ss
          (t :: r.1, r.2)
        else
          let s' : Order := { s with status := .partially_filled,
                                     filled_quantity := new_sell_filled }
          let st3 := store_set st2 s.id s'
          let r := lua_loop symbol fuel st3 bs (s' :: ss)
          (t :: r.1, r.2)
      else
        let b' : Order := { b with status := .partially_filled,
                                   filled_quantity := new_buy_filled }
        let st2 := store_set st1 b.id b'
        -- trade_quantity < buy_remaining forces trade_quantity = sell_remaining,
        -- so the script's independent sell branch necessarily takes its
        -- fully-filled arm here and advances the sell index.
        let s' : Order := { s with status := .filled, filled_quantity := s.quantity,
                                   closed_at := true }
        let st3 := store_set (idx_remove_all st2 symbol s.account_id s.id) s.id s'
        let r := lua_loop symbol fuel st3 (b' :: bs) ss
        (t :: r.1, r.2)

/-- Orders referenced by the symbol's order set, in set order, resolved against
the store (`SMEMBERS` + per-id `GET` at the top of the Lua script). -/
def symbol_order_blobs (st : EngineState) (symbol : String) : List Order :=
  ((alookup symbol st.symbol_orders).getD []).filterMap (fun i => alookup i st.store)

/-- MATCH_ORDERS_SCRIPT: collect the symbol's open and partially filled orders,
split them by side, sort each side by price-time priority and run the matching
loop. -/
def lua_match_orders (st : EngineState) (symbol : String) : List Trade × EngineState :=
  let actives := (symbol_order_blobs st symbol).filter
    (fun o => o.status = .opn ∨ o.status = .partially_filled)
  let buy_orders := sort_by_le buy_order_le (actives.filter (fun o => o.side = .buy))
  let sell_orders := sort_by_le sell_order_le (actives.filter (fun o => o.side = .sell))
  lua_loop symbol (buy_orders.length + sell_orders.length) st buy_orders sell_orders

/-- Whether `force_cleanup_filled_orders` purges this order id: the referenced
blob is missing, or its status is `filled` or `cancelled`. -/
def cleanup_purges (st : EngineState) (oid : String) : Bool :=
  match alookup oid st.store with
  | none => true
  | some o => o.status = .filled ∨ o.status = .cancelled

/-- MatchingEngine.force_cleanup_filled_orders: the three sweeps over the
symbol sets, the account sets and the global set remove every id whose order is
missing, filled or cancelled from all three index families; this is their
combined effect. -/
def force_cleanup_filled_orders (st : EngineState) : EngineState :=
  { st with
    all_orders := st.all_orders.filter (fun i => !cleanup_purges st i),
    symbol_orders := st.symbol_orders.map
      (fun kv => (kv.1, kv.2.filter (fun i => !cleanup_purges st i))),
    account_orders := st.account_orders.map
      (fun kv => (kv.1, kv.2.filter (fun i => !cleanup_purges st i))) }

/-- The per-trade forceful update in `MatchingEngine.match_orders`: re-read the
order, overwrite its status with `filled` and its `filled_quantity` with the
full original quantity, stamp `closed_at`, and remove the id from the global,
symbol and account order sets. -/
def force_fill (st : EngineState) (oid symbol account_id : String) : EngineState :=
  let st' := match alookup oid st.store with
    | some o => store_set st oid
        { o with status := .filled, filled_quantity := o.quantity, closed_at := true }
    | none => st
  idx_remove_all st' symbol account_id oid

/-- MatchingEngine.match_orders (Lua path): run the cleanup sweep, execute the
Lua script, then for each returned trade settle the two accounts via
`update_after_trade` and forcefully mark both referenced orders as filled. -/
def match_orders (st : EngineState) (symbol : String) : List Trade × EngineState :=
  let st1 := force_cleanup_filled_orders st
  let trades := (lua_match_orders st1 symbol).1
  let st2 := (lua_match_orders st1 symbol).2
  let st3 := trades.foldl
    (fun acc t =>
      let acc1 := { acc with
        ledger := (update_after_trade acc.ledger t.buy_account_id t.sell_account_id
          symbol t.quantity t.price).2 }
      let acc2 := force_fill acc1 t.buy_order_id symbol t.buy_account_id
      force_fill acc2 t.sell_order_id symbol t.sell_account_id)
    st2
  (trades, st3)

/-- MatchingEngine.update_order_status: rewrite the stored order's status,
stamping `closed_at` when the new status is `filled` or `cancelled`. -/
def update_order_status (st : EngineState) (oid : String) (stat : OrderStatus) : EngineState :=
  match alookup oid st.store with
  | none => st
  | some o =>
    let o' := { o with status := stat }
    let o' := if stat = .filled ∨ stat = .cancelled then { o' with closed_at := true } else o'
    store_set st oid o'

/-- MatchingEngine.submit_order: run the `can_trade` gate; on rejection return
the order marked `rejected` with the gate's reason, without writing anything.
Otherwise persist the order, add it to the global, account and symbol order
sets, run `match_orders` on its symbol, and mark the returned order `filled`
when one of the resulting trades covers its full quantity (the trade's
`buy_quantity`/`sell_quantity` fields both equal its `quantity`). -/
def submit_order (st : EngineState) (o : Order) : Order × EngineState :=
  let gate := can_trade st.ledger o.account_id o.symbol o.side o.price o.quantity
  if !gate.1 then ({ o with status := .rejected, reject_reason := some gate.2 }, st)
  else
    let st1 := store_set st o.id o
    let st2 := { st1 with
      all_orders := set_add o.id st1.all_orders,
      account_orders := idx_add o.account_id o.id st1.account_orders,
      symbol_orders := idx_add o.symbol o.id st1.symbol_orders }
    let trades := (match_orders st2 o.symbol).1
    let st3 := (match_orders st2 o.symbol).2
    let full_buy := trades.any (fun t => t.buy_order_id = o.id ∧ t.quantity = o.quantity)
    let full_sell := trades.any (fun t => t.sell_order_id = o.id ∧ t.quantity = o.quantity)
    if full_buy ∨ full_sell then
      ({ o with status := .filled }, update_order_status st3 o.id .filled)
    else (o, st3)

/-- MatchingEngine.cancel_order: fetch the order; refuse when it is missing,
owned by another account, or not `open`; otherwise rewrite it with status
`cancelled` and a cancellation timestamp.  No order set is touched. -/
def cancel_order (st : EngineState) (oid account_id : String) (now : ℚ) :
    (Bool × String) × EngineState :=
  match alookup oid st.store with
  | none => ((false, "Order not found"), st)
  | some o =>
    if o.account_id ≠ account_id then
      ((false, "Not authorized to cancel this order"), st)
    else if o.status ≠ .opn then
      ((false, "Order cannot be cancelled - status is " ++ status_str o.status), st)
    else
      let o' : Order := { o with status := .cancelled, cancelled_at := some now }
      ((true, "Order cancelled successfully"), store_set st oid o')

/-- Inner loop of `MatchingEngine._match_orders_python` for one buy order: walk
the sorted sell list, skipping sells already marked `filled` and sells of the
buy's own account, stopping at the first sell priced above the buy; a match
trades `min(buy_remaining, sell_remaining)` at the earlier order's limit price
(the buy price when the buy has the strictly smaller timestamp, the sell price
otherwise) and the loop stops once the buy is fully filled.  The Redis writes
the source performs mirror the returned trades and the local sell dictionaries
are never updated, which this pure embedding reproduces by keeping the sell
list unchanged across iterations. -/
def py_inner (symbol : String) (b : Order) : ℚ → List Order → List Trade
  | _, [] => []
  | buy_filled, s :: ss =>
    if s.status = .filled then py_inner symbol b buy_filled ss
    else if b.account_id = s.account_id then py_inner symbol b buy_filled ss
    else if b.price < s.price then []
    else
      let match_quantity := min (b.quantity - buy_filled) (s.quantity - s.filled_quantity)
      let trade_price := if b.timestamp < s.timestamp then b.price else s.price
      let t : Trade := { buy_order_id := b.id, sell_order_id := s.id,
                         buy_account_id := b.account_id, sell_account_id := s.account_id,
                         symbol := symbol, price := trade_price, quantity := match_quantity }
      if b.quantity ≤ buy_filled + match_quantity then [t]
      else t :: py_inner symbol b (buy_filled + match_quantity) ss

/-- Outer loop of `MatchingEngine._match_orders_python`: for each buy order in
price-time order (skipping buys already marked `filled`), run the inner sell
walk; every buy iterates over the same (never locally updated) sell list. -/
def py_match (symbol : String) (sell_orders : List Order) : List Order → List Trade
  | [] => []
  | b :: bs =>
    (if b.status = .filled then [] else py_inner symbol b b.filled_quantity sell_orders)
      ++ py_match symbol sell_orders bs

/-- MatchingEngine._match_orders_python: gather the symbol's orders of every
status, split by side, sort by price-time priority, and run the nested loops;
only the produced trades are observed by the claims about this fallback. -/
def match_orders_python (st : EngineState) (symbol : String) : List Trade :=
  let blobs := symbol_order_blobs st symbol
  let buy_orders := sort_by_le buy_order_le (blobs.filter (fun o => o.side = .buy))
  let sell_orders := sort_by_le sell_order_le (blobs.filter (fun o => o.side = .sell))
  py_match symbol sell_orders buy_orders

/-- The candidate list `process_market_order` walks: the symbol's orders on the
opposite side whose status is `open` and whose account differs from the market
order's account, sorted by price ascending for a buy market order and
descending for a sell market order. -/
def market_candidates (st : EngineState) (o : Order) : List Order :=
  let opposite : Side := if o.side = .buy then .sell else .buy
  let matching := (symbol_order_blobs st o.symbol).filter
    (fun m => m.side = opposite ∧ m.status = .opn ∧ m.account_id ≠ o.account_id)
  if o.side = .buy then sort_by_le (fun a b => decide (a.price ≤ b.price)) matching
  else sort_by_le (fun a b => decide (b.price ≤ a.price)) matching

/-- The per-fill update `process_market_order` applies to the market order
itself: raise `filled_quantity` by the matched quantity, set the status to
`filled` once the original quantity is reached and `partially_filled`
otherwise, and fold the fill into `execution_price` — the fill price when no
execution price is recorded yet, the incremental volume-weighted average
otherwise. -/
def market_fill_update (o : Order) (orig_qty price match_quantity : ℚ) : Order :=
  let new_filled := o.filled_quantity + match_quantity
  let o_status : OrderStatus :=
    if orig_qty ≤ new_filled then .filled else .partially_filled
  let o1 : Order := { o with filled_quantity := new_filled, status := o_status }
  match o1.execution_price with
  | none => { o1 with execution_price := some price }
  | some prev_exec_price =>
    let prev_exec_qty := new_filled - match_quantity
    let vwap := (prev_exec_price * prev_exec_qty + price * match_quantity) / new_filled
    { o1 with execution_price := some vwap }

/-- The fill update raises the filled quantity by the matched quantity. -/
theorem market_fill_update_filled (o : Order) (orig_qty price mq : ℚ) :
    (market_fill_update o orig_qty price mq).filled_quantity
      = o.filled_quantity + mq := by
  simp only [market_fill_update]
  cases ho : o.execution_price <;> simp [ho]

/-- The first fill stamps the fill price as the execution price. -/
theorem market_fill_update_exec_none (o : Order) (orig_qty price mq : ℚ)
    (h : o.execution_price = none) :
    (market_fill_update o orig_qty price mq).execution_price = some price := by
  simp [market_fill_update, h]

/-- A later fill folds into the recorded execution price incrementally. -/
theorem market_fill_update_exec_some (o : Order) (orig_qty price mq e : ℚ)
    (h : o.execution_price = some e) :
    (market_fill_update o orig_qty price mq).execution_price
      = some ((e * (o.filled_quantity + mq - mq) + price * mq)
          / (o.filled_quantity + mq)) := by
  simp [market_fill_update, h]

/-- The consuming loop of `MatchingEngine.process_market_order`: walk the
candidate list while quantity remains, skipping candidates with nothing
available, trading `min(remaining, available)` at the candidate's limit price,
recording the trade, updating both orders' filled quantities and statuses and
folding the fill into the market order's execution price (first fill: the fill
price; later fills: the incremental volume-weighted average). -/
def market_walk (oid account_id symbol : String) (is_buy : Bool) (orig_qty : ℚ) :
    Order → ℚ → EngineState → List Order → Order × ℚ × EngineState × List Trade
  | o, remaining, st, [] => (o, remaining, st, [])
  | o, remaining, st, m :: ms =>
    if remaining ≤ 0 then (o, remaining, st, [])
    else
      let match_available := m.quantity - m.filled_quantity
      if match_available ≤ 0 then
        market_walk oid account_id symbol is_buy orig_qty o remaining st ms
      else
        let match_quantity := min remaining match_available
        let t : Trade :=
          { buy_order_id := if is_buy then oid else m.id,
            sell_order_id := if is_buy then m.id else oid,
            buy_account_id := if is_buy then account_id else m.account_id,
            sell_account_id := if is_buy then m.account_id else account_id,
            symbol := symbol, price := m.price, quantity := match_quantity }
        let st1 := { st with trades := st.trades ++ [t] }
        let o2 := market_fill_update o orig_qty m.price match_quantity
        let m_status : OrderStatus :=
          if m.quantity ≤ m.filled_quantity + match_quantity then .filled else .partially_filled
        let m' : Order :=
          { m with filled_quantity := m.filled_quantity + match_quantity, status := m_status }
        let st2 := store_set (store_set st1 oid o2) m.id m'
        let r := market_walk oid account_id symbol is_buy orig_qty o2 (remaining - match_quantity)
          st2 ms
        (r.1, r.2.1, r.2.2.1, t :: r.2.2.2)

/-- MatchingEngine.process_market_order: fetch the order (`none` when missing),
return non-market or non-positive-quantity orders unchanged, mark the order
`pending` when no candidate exists, and otherwise walk the candidates from the
best price outward; a remainder leaves the order `partially_filled` when
something filled and `pending` when nothing did. -/
def process_market_order (st : EngineState) (oid : String) : Option (Order × EngineState) :=
  match alookup oid st.store with
  | none => none
  | some o =>
    if o.order_type ≠ "market" then some (o, st)
    else if o.quantity ≤ 0 then some (o, st)
    else
      let sorted := market_candidates st o
      if sorted.isEmpty then
        let o' : Order := { o with status := .pending }
        some (o', store_set st oid o')
      else
        let r := market_walk oid o.account_id o.symbol (o.side = .buy) o.quantity
          o o.quantity st sorted
        let o1 := r.1
        let remaining := r.2.1
        let st1 := r.2.2.1
        if 0 < remaining ∧ 0 < o1.filled_quantity then
          let o2 : Order := { o1 with status := .partially_filled }
          some (o2, store_set st1 oid o2)
        else if 0 < remaining then
          let o2 : Order := { o1 with status := .pending }
          some (o2, store_set st1 oid o2)
        else some (o1, st1)

/-- Total quantity of a trade list. -/
def trades_qty (ts : List Trade) : ℚ :=
  (ts.map (fun t => t.quantity)).sum

/-- Total price-weighted quantity (notional) of a trade list. -/
def trades_pq (ts : List Trade) : ℚ :=
  (ts.map (fun t => t.price * t.quantity)).sum

/-- Liquidity available in a candidate list: the sum of the positive parts of
`quantity - filled_quantity`. -/
def avail_sum (ms : List Order) : ℚ :=
  (ms.map (fun m => max (m.quantity - m.filled_quantity) 0)).sum

/-- Helper to build a resting limit order with the defaults `submit_order`
establishes (`filled_quantity = 0`, `status = open`). -/
def mk_order (oid account_id symbol : String) (side : Side) (price quantity ts : ℚ) : Order :=
  { id := oid, account_id := account_id, symbol := symbol, side := side,
    order_type := "limit", price := price, quantity := quantity, filled_quantity := 0,
    status := .opn, timestamp := ts, tif := "gtc", execution_price := none,
    reject_reason := none, cancelled_at := none, closed_at := false }

/-- Engine state holding the given orders of one symbol, with all index sets
populated the way `submit_order` populates them, over the given ledger. -/
def mk_state (symbol : String) (orders : List Order) (L : Ledger) : EngineState :=
  { store := orders.map (fun o => (o.id, o)),
    all_orders := orders.map (fun o => o.id),
    symbol_orders := [(symbol, orders.map (fun o => o.id))],
    account_orders := orders.foldl (fun m o => idx_add o.account_id o.id m) [],
    trades := [],
    ledger := L }

/-- Ledger with two funded, active accounts `A` and `B`; `A` holds 150 AAPL. -/
def ledger_ab : Ledger :=
  { accounts := [("A", { account_id := "A", balance := 1000000, active := true }),
                 ("B", { account_id := "B", balance := 500000, active := true })],
    positions := [(("A", "AAPL"), { symbol := "AAPL", quantity := 150, avg_price := 100 })],
    txns := [] }

/-- Earlier buy limit order at 101 (timestamp 1) of account `A`. -/
def c1_buy : Order := mk_order "B1" "A" "AAPL" .buy 101 5 1

/-- Later sell limit order at 100 (timestamp 2) of account `B`. -/
def c1_sell : Order := mk_order "S1" "B" "AAPL" .sell 100 5 2

/-- Earlier buy at 101 against a later sell at 100: the crossing pair for the
execution-price claim. -/
def c1_state : EngineState := mk_state "AAPL" [c1_buy, c1_sell] ledger_ab

/-- Account `A`'s newer buy (timestamp 10) for the self-trade scenario. -/
def c4_buy : Order := mk_order "B1" "A" "AAPL" .buy 101 5 10

/-- Account `A`'s older sell (timestamp 5), the buy's same-account partner. -/
def c4_sell_own : Order := mk_order "S1" "A" "AAPL" .sell 100 5 5

/-- Account `B`'s sell (timestamp 6) at a worse price than `A`'s own sell. -/
def c4_sell_other : Order := mk_order "S2" "B" "AAPL" .sell 101 5 6

/-- Book for the Python-fallback self-trade scenario: account `A`'s newer buy
crosses both `A`'s older sell (same account) and `B`'s later sell. -/
def c4_state : EngineState :=
  mk_state "AAPL" [c4_buy, c4_sell_own, c4_sell_other] ledger_ab

/-- The spec's partial-fill scenario: `A` buys 100@150 (earlier), `B` sells
40@149 (later). -/
def c5_state : EngineState :=
  mk_state "AAPL" [mk_order "B" "A" "AAPL" .buy 150 100 1,
                   mk_order "S" "B" "AAPL" .sell 149 40 2] ledger_ab

/-- The single trade the partial-fill scenario produces: 40 units at the sell
price 149. -/
def c5_trade : Trade :=
  { buy_order_id := "B", sell_order_id := "S", buy_account_id := "A",
    sell_account_id := "B", symbol := "AAPL", price := 149, quantity := 40 }

/-- A single resting open order of account `A`, present in every index set. -/
def c6_state : EngineState :=
  mk_state "AAPL" [mk_order "o1" "A" "AAPL" .buy 100 10 1] ledger_ab

/-- A buy one unit beyond the documented maximum quantity bound, submitted
against a funded account. -/
def c7_order : Order := mk_order "Q1" "A" "AAPL" .buy 1 100001 1

/-- The spec's IOC scenario: a resting buy 50@199 of account `B`; account `A`
then submits sell 100@200 with time-in-force `ioc`. -/
def c9_state : EngineState :=
  mk_state "AAPL" [mk_order "B9" "B" "AAPL" .buy 199 50 1] ledger_ab

/-- The incoming IOC sell order of the spec's scenario. -/
def c9_order : Order :=
  { mk_order "S9" "A" "AAPL" .sell 200 100 2 with tif := "ioc" }

/-- Ledger for the settlement-failure scenario: the selling account exists and
holds inventory, the buying account does not exist. -/
def c2_ledger : Ledger :=
  { accounts := [("S", { account_id := "S", balance := 0, active := true })],
    positions := [(("S", "AAPL"), { symbol := "AAPL", quantity := 10, avg_price := 100 })],
    txns := [] }

/-- The spec's market-order walking scenario: resting sells 30@150, 50@151,
20@152 (three different accounts) and account `A`'s buy market order for 100. -/
def c8_market_order : Order :=
  { mk_order "M1" "A" "AAPL" .buy 0 100 4 with order_type := "market" }

/-- State for the market-order walking scenario. -/
def c8_state : EngineState :=
  mk_state "AAPL" [mk_order "L150" "B" "AAPL" .sell 150 30 1,
                   mk_order "L151" "C" "AAPL" .sell 151 50 2,
                   mk_order "L152" "D" "AAPL" .sell 152 20 3,
                   c8_market_order] ledger_ab

/-- The three fills the market-order walk produces: 30@150, 50@151, 20@152. -/
def c8_expected_trades : List Trade :=
  [{ buy_order_id := "M1", sell_order_id := "L150", buy_account_id := "A",
     sell_account_id := "B", symbol := "AAPL", price := 150, quantity := 30 },
   { buy_order_id := "M1", sell_order_id := "L151", buy_account_id := "A",
     sell_account_id := "C", symbol := "AAPL", price := 151, quantity := 50 },
   { buy_order_id := "M1", sell_order_id := "L152", buy_account_id := "A",
     sell_account_id := "D", symbol := "AAPL", price := 152, quantity := 20 }]

/-- The trade of the execution-price counterexample: 5 units at the sell price
100 between the earlier buy at 101 and the later sell at 100. -/
def c1_trade : Trade :=
  { buy_order_id := "B1", sell_order_id := "S1", buy_account_id := "A",
    sell_account_id := "B", symbol := "AAPL", price := 100, quantity := 5 }

/-- The trade the Python fallback produces in the self-trade scenario: the
newer same-account buy `B1` is not skipped and trades with `B`'s sell `S2`. -/
def c4_trade : Trade :=
  { buy_order_id := "B1", sell_order_id := "S2", buy_account_id := "A",
    sell_account_id := "B", symbol := "AAPL", price := 101, quantity := 5 }

/-- A buy order whose value exceeds the submitting account's balance. -/
def c3_order : Order := mk_order "R1" "A" "AAPL" .buy 200000 10 1

/-- Engine state with an empty book over the two-account ledger. -/
def empty_book_state : EngineState := mk_state "AAPL" [] ledger_ab

/-- Position quantity of an account in a symbol, `0` when no record exists. -/
def pos_qty (L : Ledger) (account_id symbol : String) : ℚ :=
  ((get_position L account_id symbol).map Position.quantity).getD 0

/-! General lemmas about the store primitives and the ledger operations. -/

/-- Looking up the key just written returns the written value. -/
theorem alookup_alset_self {κ α : Type} [DecidableEq κ] (k : κ) (v : α)
    (m : List (κ × α)) : alookup k (alset k v m) = some v := by
  induction m with
  | nil => simp [alookup, alset]
  | cons kv l ih =>
    by_cases h : kv.1 = k
    · simp [alset, alookup, h]
    · simp [alset, alookup, h, ih]

/-- Writing one key does not change the lookup of another. -/
theorem alookup_alset_ne {κ α : Type} [DecidableEq κ] {k k' : κ} (v : α)
    (m : List (κ × α)) (h : k' ≠ k) : alookup k (alset k' v m) = alookup k m := by
  induction m with
  | nil => simp [alookup, alset, h]
  | cons kv l ih =>
    by_cases h1 : kv.1 = k'
    · simp [alset, alookup, h1, h]
    · simp [alset, alookup, h1, ih]

/-- Sorting does not change the members of a list. -/
theorem mem_insort {α : Type} (le : α → α → Bool) (x a : α) (l : List α) :
    a ∈ insort le x l ↔ a = x ∨ a ∈ l := by
  induction l with
  | nil => simp [insort]
  | cons b l ih =>
    by_cases h : le x b
    · simp [insort, h]
    · simp only [insort, h, Bool.false_eq_true, if_false, List.mem_cons, ih]
      tauto

/-- Membership is invariant under the stable insertion sort. -/
theorem mem_sort_by_le {α : Type} (le : α → α → Bool) (a : α) (l : List α) :
    a ∈ sort_by_le le l ↔ a ∈ l := by
  induction l with
  | nil => simp [sort_by_le]
  | cons b l ih => simp [sort_by_le, mem_insort, ih]

/-- A successful balance adjustment: the flag is true, the target account's
balance moves by `amount`, other accounts and all positions are untouched. -/
theorem adjust_account_balance_some (L : Ledger) (account_id : String) (amount : ℚ)
    (txn_type : String) (a : Account) (h : get_account L account_id = some a) :
    (adjust_account_balance L account_id amount txn_type).1 = true
    ∧ get_account (adjust_account_balance L account_id amount txn_type).2 account_id
        = some { a with balance := a.balance + amount }
    ∧ (∀ x, x ≠ account_id →
        get_account (adjust_account_balance L account_id amount txn_type).2 x
          = get_account L x)
    ∧ (adjust_account_balance L account_id amount txn_type).2.positions = L.positions := by
  have h' : alookup account_id L.accounts = some a := h
  refine ⟨by simp [adjust_account_balance, get_account, h'], ?_, ?_,
    by simp [adjust_account_balance, get_account, h']⟩
  · simp [adjust_account_balance, get_account, h', alookup_alset_self]
  · intro x hx
    simp [adjust_account_balance, get_account, h', alookup_alset_ne _ _ (Ne.symm hx)]

/-- A failed balance adjustment (missing account) leaves the ledger unchanged. -/
theorem adjust_account_balance_none (L : Ledger) (account_id : String) (amount : ℚ)
    (txn_type : String) (h : get_account L account_id = none) :
    adjust_account_balance L account_id amount txn_type = (false, L) := by
  simp [adjust_account_balance, h]

/-- Position updates do not touch the accounts hash. -/
theorem update_position_accounts (L : Ledger) (account_id symbol : String)
    (quantity_change price : ℚ) (transaction_type : String) :
    (update_position L account_id symbol quantity_change price transaction_type).accounts
      = L.accounts := by
  unfold update_position
  cases get_position L account_id symbol <;> simp

/-- A position update moves the target pair's quantity by exactly the change. -/
theorem update_position_qty (L : Ledger) (account_id symbol : String)
    (quantity_change price : ℚ) (transaction_type : String) :
    pos_qty (update_position L account_id symbol quantity_change price transaction_type)
        account_id symbol
      = pos_qty L account_id symbol + quantity_change := by
  unfold pos_qty update_position
  cases h : get_position L account_id symbol with
  | none => simp [h, get_position, alookup_alset_self]
  | some p => simp [h, get_position, alookup_alset_self]

/-- A position update leaves every other (account, symbol) pair unchanged. -/
theorem update_position_other (L : Ledger) (account_id symbol : String)
    (quantity_change price : ℚ) (transaction_type : String) (x y : String)
    (h : (x, y) ≠ (account_id, symbol)) :
    get_position (update_position L account_id symbol quantity_change price transaction_type)
        x y = get_position L x y := by
  unfold update_position
  cases hp : get_position L account_id symbol <;>
    simp [get_position, alookup_alset_ne _ _ (Ne.symm h)]

/-- Writing an order blob leaves the ledger untouched. -/
theorem store_set_ledger (st : EngineState) (oid : String) (o : Order) :
    (store_set st oid o).ledger = st.ledger := rfl

/-- The market-order walk never touches the ledger. -/
theorem market_walk_ledger (oid account_id symbol : String) (is_buy : Bool)
    (orig_qty : ℚ) :
    ∀ (ms : List Order) (o : Order) (remaining : ℚ) (st : EngineState),
    (market_walk oid account_id symbol is_buy orig_qty o remaining st ms).2.2.1.ledger
      = st.ledger := by
  intro ms
  induction ms with
  | nil => intro o remaining st; simp [market_walk]
  | cons m ms ih =>
    intro o remaining st
    simp only [market_walk]
    by_cases h1 : remaining ≤ 0
    · simp [h1]
    · by_cases h2 : m.quantity - m.filled_quantity ≤ 0
      · simp [h1, h2, ih]
      · simp [h1, h2, ih, store_set]

/-- Processing a market order leaves the ledger untouched: the market-order
path performs no settlement at all. -/
theorem process_market_order_ledger (st : EngineState) (oid : String)
    (r : Order × EngineState) (h : process_market_order st oid = some r) :
    r.2.ledger = st.ledger := by
  unfold process_market_order at h
  cases ho : alookup oid st.store with
  | none => rw [ho] at h; simp at h
  | some o =>
    rw [ho] at h
    dsimp only at h
    by_cases h1 : o.order_type ≠ "market"
    · rw [if_pos h1] at h
      cases h; rfl
    · rw [if_neg h1] at h
      by_cases h2 : o.quantity ≤ 0
      · rw [if_pos h2] at h
        cases h; rfl
      · rw [if_neg h2] at h
        by_cases h3 : (market_candidates st o).isEmpty
        · rw [if_pos h3] at h
          cases h; rfl
        · rw [if_neg h3] at h
          have hl := market_walk_ledger oid o.account_id o.symbol (o.side = .buy)
            o.quantity (market_candidates st o) o o.quantity st
          by_cases h4 : 0 < (market_walk oid o.account_id o.symbol (o.side = .buy)
              o.quantity o o.quantity st (market_candidates st o)).2.1 ∧
              0 < (market_walk oid o.account_id o.symbol (o.side = .buy)
              o.quantity o o.quantity st (market_candidates st o)).1.filled_quantity
          · rw [if_pos h4] at h
            cases h; simpa [store_set] using hl
          · rw [if_neg h4] at h
            by_cases h5 : 0 < (market_walk oid o.account_id o.symbol (o.side = .buy)
                o.quantity o o.quantity st (market_candidates st o)).2.1
            · rw [if_pos h5] at h
              cases h; simpa [store_set] using hl
            · rw [if_neg h5] at h
              cases h; exact hl

/-- Position lookups only read the positions component. -/
theorem get_position_congr {L1 L2 : Ledger} (h : L1.positions = L2.positions)
    (account_id symbol : String) :
    get_position L1 account_id symbol = get_position L2 account_id symbol := by
  unfold get_position; rw [h]

/-- Position quantities only read the positions component. -/
theorem pos_qty_congr {L1 L2 : Ledger} (h : L1.positions = L2.positions)
    (account_id symbol : String) :
    pos_qty L1 account_id symbol = pos_qty L2 account_id symbol := by
  unfold pos_qty; rw [get_position_congr h]

/-- Account lookups only read the accounts component. -/
theorem get_account_congr {L1 L2 : Ledger} (h : L1.accounts = L2.accounts)
    (account_id : String) : get_account L1 account_id = get_account L2 account_id := by
  unfold get_account; rw [h]

/-- C2, counterexample.  The claim asserts the four settlement mutations are
atomic — observable together or not at all, with no trade persisted on any
failure.  On the ledger `c2_ledger`, whose buying account `B` does not exist,
`update_after_trade` reports the buyer-side failure yet still credits the
selling account `S` with the full trade value 500 and reduces `S`'s position
from 10 to 5: one side's mutations take effect without the other's. -/
theorem c2_settlement_counterexample :
    (update_after_trade c2_ledger "B" "S" "AAPL" 5 100).1 = (false, true)
    ∧ (get_account c2_ledger "S").map Account.balance = some 0
    ∧ (get_account (update_after_trade c2_ledger "B" "S" "AAPL" 5 100).2 "S").map
        Account.balance = some 500
    ∧ pos_qty c2_ledger "S" "AAPL" = 10
    ∧ pos_qty (update_after_trade c2_ledger "B" "S" "AAPL" 5 100).2 "S" "AAPL" = 5
    ∧ get_account (update_after_trade c2_ledger "B" "S" "AAPL" 5 100).2 "B" = none := by
  refine ⟨?_, ?_, ?_, ?_, ?_, ?_⟩ <;>
    simp +decide [update_after_trade, adjust_account_balance, update_position,
      get_account, get_position, pos_qty, alookup, alset, c2_ledger] <;> norm_num

/-- C2 (amended): for each trade of the limit matching path,
`update_after_trade` performs the four settlement mutations — buyer debited by
`quantity · price`, seller credited by the same amount, buyer position up and
seller position down by `quantity` — but as two independent sides rather than
one atomic unit: when the buyer-side balance update fails, the seller is still
credited and the seller's position still moves, with nothing rolled back;
and trades produced by `process_market_order` update no ledger at all. -/
theorem c2_settlement_amended :
    (∀ (L : Ledger) (b s sym : String) (q p : ℚ) (ab sa : Account), b ≠ s →
      get_account L b = some ab → get_account L s = some sa →
      (update_after_trade L b s sym q p).1 = (true, true)
      ∧ (get_account (update_after_trade L b s sym q p).2 b).map Account.balance
          = some (ab.balance - q * p)
      ∧ (get_account (update_after_trade L b s sym q p).2 s).map Account.balance
          = some (sa.balance + q * p)
      ∧ pos_qty (update_after_trade L b s sym q p).2 b sym = pos_qty L b sym + q
      ∧ pos_qty (update_after_trade L b s sym q p).2 s sym = pos_qty L s sym - q)
    ∧ (∀ (L : Ledger) (b s sym : String) (q p : ℚ) (sa : Account), b ≠ s →
      get_account L b = none → get_account L s = some sa →
      (update_after_trade L b s sym q p).1 = (false, true)
      ∧ (get_account (update_after_trade L b s sym q p).2 s).map Account.balance
          = some (sa.balance + q * p)
      ∧ get_account (update_after_trade L b s sym q p).2 b = none
      ∧ get_position (update_after_trade L b s sym q p).2 b sym = get_position L b sym)
    ∧ (∀ (st : EngineState) (oid : String) (r : Order × EngineState),
      process_market_order st oid = some r → r.2.ledger = st.ledger) := by
  refine ⟨?_, ?_, fun st oid r h => process_market_order_ledger st oid r h⟩
  · intro L b s sym q p ab sa hbs hb hs
    obtain ⟨e1ok, e1b, e1other, e1pos⟩ :=
      adjust_account_balance_some L b (-(q * p)) "trade" ab hb
    set L1 := (adjust_account_balance L b (-(q * p)) "trade").2 with hL1
    set L2 := update_position L1 b sym q p "buy" with hL2
    have hacc2 : L2.accounts = L1.accounts := update_position_accounts ..
    have hs2 : get_account L2 s = some sa := by
      rw [get_account_congr hacc2, e1other s (Ne.symm hbs), hs]
    obtain ⟨e2ok, e2s, e2other, e2pos⟩ :=
      adjust_account_balance_some L2 s (q * p) "trade" sa hs2
    set L3 := (adjust_account_balance L2 s (q * p) "trade").2 with hL3
    set L4 := update_position L3 s sym (-q) p "sell" with hL4
    have hacc4 : L4.accounts = L3.accounts := update_position_accounts ..
    have hres : update_after_trade L b s sym q p = ((true, true), L4) := by
      simp only [update_after_trade, ← hL1, e1ok, if_true, ← hL2, ← hL3, e2ok, ← hL4]
    refine ⟨by rw [hres], ?_, ?_, ?_, ?_⟩
    · rw [hres]
      have : get_account L4 b = some { ab with balance := ab.balance + -(q * p) } := by
        rw [get_account_congr hacc4, e2other b hbs, get_account_congr hacc2, e1b]
      simp [this]; ring
    · rw [hres]
      have : get_account L4 s = some { sa with balance := sa.balance + q * p } := by
        rw [get_account_congr hacc4, e2s]
      simp [this]
    · rw [hres]
      have h4 : get_position L4 b sym = get_position L3 b sym :=
        update_position_other L3 s sym (-q) p "sell" b sym (by simp [hbs])
      have h3 : pos_qty L3 b sym = pos_qty L2 b sym := pos_qty_congr e2pos ..
      have h2 : pos_qty L2 b sym = pos_qty L1 b sym + q := update_position_qty ..
      have h1 : pos_qty L1 b sym = pos_qty L b sym := pos_qty_congr e1pos ..
      unfold pos_qty at *
      rw [h4] at *
      rw [h3, h2, h1]
    · rw [hres]
      have h4 : pos_qty L4 s sym = pos_qty L3 s sym + -q := update_position_qty ..
      have h3 : pos_qty L3 s sym = pos_qty L2 s sym := pos_qty_congr e2pos ..
      have h2 : get_position L2 s sym = get_position L1 s sym :=
        update_position_other L1 b sym q p "buy" s sym (by simp [Ne.symm hbs])
      have h1 : pos_qty L1 s sym = pos_qty L s sym := pos_qty_congr e1pos ..
      rw [h4, h3]
      unfold pos_qty
      rw [h2]
      have := h1
      unfold pos_qty at this
      rw [this]; ring
  · intro L b s sym q p sa hbs hb hs
    have e1 : adjust_account_balance L b (-(q * p)) "trade" = (false, L) :=
      adjust_account_balance_none L b (-(q * p)) "trade" hb
    obtain ⟨e2ok, e2s, e2other, e2pos⟩ :=
      adjust_account_balance_some L s (q * p) "trade" sa hs
    set L3 := (adjust_account_balance L s (q * p) "trade").2 with hL3
    set L4 := update_position L3 s sym (-q) p "sell" with hL4
    have hacc4 : L4.accounts = L3.accounts := update_position_accounts ..
    have hres : update_after_trade L b s sym q p = ((false, true), L4) := by
      simp only [update_after_trade, e1, Bool.false_eq_true, if_false, ← hL3, e2ok,
        if_true, ← hL4]
    refine ⟨by rw [hres], ?_, ?_, ?_⟩
    · rw [hres]
      have : get_account L4 s = some { sa with balance := sa.balance + q * p } := by
        rw [get_account_congr hacc4, e2s]
      simp [this]
    · rw [hres, get_account_congr hacc4, e2other b hbs, hb]
    · rw [hres]
      have h4 : get_position L4 b sym = get_position L3 b sym :=
        update_position_other L3 s sym (-q) p "sell" b sym (by simp [hbs])
      rw [h4, get_position_congr e2pos]

/-- Witness for the amended settlement theorem at a concrete trade of 5@100
between the two funded accounts of `ledger_ab`. -/
theorem c2_settlement_amended_witness :
    (update_after_trade ledger_ab "A" "B" "AAPL" 5 100).1 = (true, true)
    ∧ (get_account (update_after_trade ledger_ab "A" "B" "AAPL" 5 100).2 "A").map
        Account.balance = some ((1000000 : ℚ) - 5 * 100)
    ∧ (get_account (update_after_trade ledger_ab "A" "B" "AAPL" 5 100).2 "B").map
        Account.balance = some ((500000 : ℚ) + 5 * 100) := by
  have h := c2_settlement_amended.1 ledger_ab "A" "B" "AAPL" 5 100
    { account_id := "A", balance := 1000000, active := true }
    { account_id := "B", balance := 500000, active := true }
    (by decide) (by decide) (by decide)
  exact ⟨h.1, h.2.1, h.2.2.1⟩

/-- The reason string the gate produces for `c3_order` over `ledger_ab`. -/
def c3_reason : String := "Insufficient funds ($1000000 available, $2000000 required)"

/-- C3, counterexample.  The claim asserts a risk-rejected order is persisted
to the store.  Submitting `c3_order` (a buy whose value 2,000,000 exceeds the
account's balance 1,000,000) returns it with status `rejected` and the gate's
reason, but the engine state is completely unchanged and the store holds no
record of the order: `submit_order` returns before its first write. -/
theorem c3_reject_persistence_counterexample :
    (submit_order empty_book_state c3_order).1.status = .rejected
    ∧ (submit_order empty_book_state c3_order).1.reject_reason = some c3_reason
    ∧ (submit_order empty_book_state c3_order).2 = empty_book_state
    ∧ alookup c3_order.id (submit_order empty_book_state c3_order).2.store = none := by
  refine ⟨?_, ?_, ?_, ?_⟩ <;>
    norm_num [submit_order, can_trade, get_account, get_position, alookup, c3_reason,
      empty_book_state, mk_state, c3_order, mk_order, ledger_ab] <;> decide

/-- C3 (amended): when the `can_trade` gate rejects a submission, the order is
returned with status `rejected` and the gate's first failing reason, and the
engine state — store, every book index, trade log and ledger — is exactly the
state before the call; in particular the rejected order is not persisted. -/
theorem c3_reject_amended (st : EngineState) (o : Order) (r : String)
    (h : can_trade st.ledger o.account_id o.symbol o.side o.price o.quantity
      = (false, r)) :
    submit_order st o = ({ o with status := .rejected, reject_reason := some r }, st) := by
  simp [submit_order, h]

/-- Witness for the rejected-submission theorem at the concrete over-budget
order `c3_order`. -/
theorem c3_reject_amended_witness :
    submit_order empty_book_state c3_order
      = ({ c3_order with status := .rejected, reject_reason := some c3_reason },
         empty_book_state) :=
  c3_reject_amended empty_book_state c3_order c3_reason
    (by norm_num [can_trade, get_account, get_position, alookup, c3_reason,
      empty_book_state, mk_state, c3_order, mk_order, ledger_ab] <;> decide)

/-- C10: the ledger's position-update path, invoked for a sell of quantity `q`
on a pair with no position record, creates a fresh record with quantity `-q`
and average price equal to the trade price — the ledger layer itself creates
short positions — and the only guard is `can_trade`, which admits a sell only
when a position record exists whose quantity is at least `q`. -/
theorem c10_short_position_creation :
    (∀ (L : Ledger) (account_id symbol : String) (q price : ℚ),
      get_position L account_id symbol = none → 0 < q →
      get_position (update_position L account_id symbol (-q) price "sell")
          account_id symbol
        = some { symbol := symbol, quantity := -q, avg_price := price })
    ∧ (∀ (L : Ledger) (account_id symbol : String) (price q : ℚ),
      (can_trade L account_id symbol .sell price q).1 = true →
      ∃ p, get_position L account_id symbol = some p ∧ q ≤ p.quantity) := by
  constructor
  · intro L a s q price h _
    have h' : alookup (a, s) L.positions = none := h
    simp [update_position, get_position, h', alookup_alset_self]
  · intro L a s price q h
    unfold can_trade at h
    cases ha : get_account L a with
    | none => rw [ha] at h; simp at h
    | some acct =>
      rw [ha] at h
      dsimp only at h
      by_cases hact : !acct.active
      · rw [if_pos hact] at h; simp at h
      · rw [if_neg hact] at h
        have hbuy : ¬(Side.sell = Side.buy ∧ acct.balance < price * q) := by simp
        rw [if_neg hbuy] at h
        cases hp : get_position L a s with
        | none => simp [hp] at h
        | some p =>
          by_cases hlt : p.quantity < q
          · simp [hp, hlt] at h
          · exact ⟨p, rfl, not_lt.mp hlt⟩

/-- Witness for the short-position theorem: on `c2_ledger` (no position for
account `B`) a sell of 3@50 creates the short position −3@50, and on
`ledger_ab` account `A` may sell 50 AAPL because its recorded position is
150 ≥ 50. -/
theorem c10_short_position_creation_witness :
    get_position (update_position c2_ledger "B" "AAPL" (-3) 50 "sell") "B" "AAPL"
      = some { symbol := "AAPL", quantity := -3, avg_price := 50 }
    ∧ ∃ p, get_position ledger_ab "A" "AAPL" = some p ∧ (50 : ℚ) ≤ p.quantity :=
  ⟨c10_short_position_creation.1 c2_ledger "B" "AAPL" 3 50 (by decide) (by decide),
   c10_short_position_creation.2 ledger_ab "A" "AAPL" 100 50 (by decide)⟩

/-- C6, counterexample.  The claim asserts a successful cancel removes the
order id from every book index.  Cancelling the open order `o1` of `c6_state`
succeeds and rewrites the stored blob to `cancelled`, yet `o1` remains in the
global order set, the symbol set and the account set: `cancel_order` issues no
index removal at all. -/
theorem c6_cancel_counterexample :
    (cancel_order c6_state "o1" "A" 5).1 = (true, "Order cancelled successfully")
    ∧ (alookup "o1" (cancel_order c6_state "o1" "A" 5).2.store).map Order.status
        = some .cancelled
    ∧ alookup "AAPL" (cancel_order c6_state "o1" "A" 5).2.symbol_orders = some ["o1"]
    ∧ "o1" ∈ (cancel_order c6_state "o1" "A" 5).2.all_orders
    ∧ alookup "A" (cancel_order c6_state "o1" "A" 5).2.account_orders = some ["o1"] := by
  refine ⟨?_, ?_, ?_, ?_, ?_⟩ <;>
    simp +decide [cancel_order, store_set, alookup, alset, idx_add, c6_state, mk_state,
      mk_order, ledger_ab, status_str]

/-- C6 (amended): cancelling succeeds exactly when the order exists, is owned
by the requesting account and has status `open`; on success the stored blob is
rewritten with status `cancelled` and the cancellation timestamp but the order
id is removed from no index — the global, symbol and account order sets are
untouched (removal is left to the cleanup sweeps of the matching loop); on any
failure an explanatory message is returned and the state is unchanged. -/
theorem c6_cancel_amended :
    (∀ (st : EngineState) (oid account_id : String) (now : ℚ) (o : Order),
      alookup oid st.store = some o → o.account_id = account_id → o.status = .opn →
      cancel_order st oid account_id now
        = ((true, "Order cancelled successfully"),
           store_set st oid { o with status := .cancelled, cancelled_at := some now })
      ∧ (cancel_order st oid account_id now).2.symbol_orders = st.symbol_orders
      ∧ (cancel_order st oid account_id now).2.all_orders = st.all_orders
      ∧ (cancel_order st oid account_id now).2.account_orders = st.account_orders
      ∧ (cancel_order st oid account_id now).2.ledger = st.ledger)
    ∧ (∀ (st : EngineState) (oid account_id : String) (now : ℚ),
      (cancel_order st oid account_id now).1.1 = false →
      (cancel_order st oid account_id now).2 = st)
    ∧ (∀ (st : EngineState) (oid account_id : String) (now : ℚ),
      (cancel_order st oid account_id now).1.1 = true ↔
        ∃ o, alookup oid st.store = some o ∧ o.account_id = account_id
          ∧ o.status = .opn) := by
  refine ⟨?_, ?_, ?_⟩
  · intro st oid account_id now o h1 h2 h3
    have heq : cancel_order st oid account_id now
        = ((true, "Order cancelled successfully"),
           store_set st oid { o with status := .cancelled, cancelled_at := some now }) := by
      simp [cancel_order, h1, h2, h3]
    exact ⟨heq, by simp [heq, store_set], by simp [heq, store_set],
      by simp [heq, store_set], by simp [heq, store_set]⟩
  · intro st oid account_id now h
    cases ho : alookup oid st.store with
    | none => simp [cancel_order, ho]
    | some o =>
      by_cases h2 : o.account_id ≠ account_id
      · simp [cancel_order, ho, h2]
      · by_cases h3 : o.status ≠ .opn
        · simp [cancel_order, ho, h2, h3]
        · simp [cancel_order, ho, h2, h3] at h
  · intro st oid account_id now
    cases ho : alookup oid st.store with
    | none => simp [cancel_order, ho]
    | some o =>
      by_cases h2 : o.account_id = account_id
      · by_cases h3 : o.status = .opn
        · simp [cancel_order, ho, h2, h3]
        · simp [cancel_order, ho, h2, h3]
      · simp [cancel_order, ho, h2]

/-- The cancelled form of the fixture order `o1`. -/
def c6_cancelled_order : Order :=
  { mk_order "o1" "A" "AAPL" .buy 100 10 1 with
    status := .cancelled, cancelled_at := some 5 }

/-- Witness for the amended cancel theorem at the concrete open order `o1`. -/
theorem c6_cancel_amended_witness :
    cancel_order c6_state "o1" "A" 5
      = ((true, "Order cancelled successfully"), store_set c6_state "o1" c6_cancelled_order)
    ∧ (cancel_order c6_state "o1" "A" 5).2.symbol_orders = c6_state.symbol_orders :=
  have h := c6_cancel_amended.1 c6_state "o1" "A" 5 (mk_order "o1" "A" "AAPL" .buy 100 10 1)
    (by decide) (by decide) (by decide)
  ⟨h.1, h.2.1⟩

/-- C7, counterexample.  The claim asserts the risk gate rejects orders one
unit beyond the configured quantity bounds.  Submitting `c7_order`, a buy of
100,001 units — one beyond the documented maximum of 100,000 — against the
funded account `A` is accepted: the engine-path gate `can_trade` imposes no
quantity bound, so the order is admitted with status `open`, resting in the
book. -/
theorem c7_quantity_bounds_counterexample :
    c7_order.quantity = risk_max_order_quantity + 1
    ∧ (submit_order empty_book_state c7_order).1.status = .opn
    ∧ (submit_order empty_book_state c7_order).1.status ≠ .rejected
    ∧ alookup "AAPL" (submit_order empty_book_state c7_order).2.symbol_orders
        = some ["Q1"] := by
  refine ⟨?_, ?_, ?_, ?_⟩ <;>
    norm_num [submit_order, can_trade, get_account, get_position, match_orders,
      force_cleanup_filled_orders, cleanup_purges, lua_match_orders, lua_loop,
      symbol_order_blobs, sort_by_le, insort, buy_order_le, sell_order_le, alookup,
      alset, idx_add, idx_rem, set_add, store_set, force_fill, update_order_status,
      c7_order, empty_book_state, mk_state, mk_order, ledger_ab,
      risk_max_order_quantity] <;> decide

/-- C7 (amended): the gate the engine actually consults for submissions
against an account, `can_trade`, enforces no quantity bounds at all — any buy
within budget passes, whatever its quantity; the documented bounds
`[min_qty, max_qty] = [1, 100000]` live only in `RiskManager.check_order`,
which the order-book path consults solely for submissions without an account
id, and there the boundary quantities are accepted while one unit beyond
either bound is rejected. -/
theorem c7_quantity_bounds_amended :
    (∀ (L : Ledger) (account_id symbol : String) (p q : ℚ) (a : Account),
      get_account L account_id = some a → a.active = true → p * q ≤ a.balance →
      (can_trade L account_id symbol .buy p q).1 = true)
    ∧ (check_order risk_min_order_quantity (1 / 100) "limit").1 = true
    ∧ (check_order risk_max_order_quantity (1 / 100) "limit").1 = true
    ∧ (check_order (risk_min_order_quantity - 1) (1 / 100) "limit").1 = false
    ∧ (check_order (risk_max_order_quantity + 1) (1 / 100) "limit").1 = false := by
  refine ⟨?_, ?_, ?_, ?_, ?_⟩
  · intro L account_id symbol p q a ha hact hval
    unfold can_trade
    rw [ha]
    dsimp only
    rw [if_neg (by simp [hact])]
    rw [if_neg (by simp; exact hval)]
    rw [if_neg (by simp)]
  · norm_num [check_order, risk_min_order_quantity, risk_max_order_quantity,
      risk_min_order_price, risk_max_order_value]
  · norm_num [check_order, risk_min_order_quantity, risk_max_order_quantity,
      risk_min_order_price, risk_max_order_value]
  · norm_num [check_order, risk_min_order_quantity, risk_max_order_quantity,
      risk_min_order_price, risk_max_order_value]
  · norm_num [check_order, risk_min_order_quantity, risk_max_order_quantity,
      risk_min_order_price, risk_max_order_value]

/-- Witness for the amended quantity-bounds theorem: account `A` of
`ledger_ab` may buy 100,001 units at price 1. -/
theorem c7_quantity_bounds_amended_witness :
    (can_trade ledger_ab "A" "AAPL" .buy 1 100001).1 = true :=
  c7_quantity_bounds_amended.1 ledger_ab "A" "AAPL" 1 100001
    { account_id := "A", balance := 1000000, active := true }
    (by decide) rfl (by norm_num)

/-- C5, code bug.  On the spec's own partial-fill scenario (`A` buys 100@150,
`B` sells 40@149) the Lua script correctly produces one trade of 40 and stores
the buy as `partially_filled` with `filled_quantity = 40` — but the engine
wrapper `match_orders` then forcefully overwrites every order named by a trade
with status `filled` and `filled_quantity` equal to its full original quantity
and removes it from the book, so the buy ends `filled` with 100 despite only
40 units having traded, and the symbol index is emptied. -/
theorem c5_partial_fill_code_bug :
    (lua_match_orders (force_cleanup_filled_orders c5_state) "AAPL").1 = [c5_trade]
    ∧ (alookup "B"
        (lua_match_orders (force_cleanup_filled_orders c5_state) "AAPL").2.store).map
        (fun o => (o.status, o.filled_quantity)) = some (.partially_filled, 40)
    ∧ (match_orders c5_state "AAPL").1 = [c5_trade]
    ∧ (alookup "B" (match_orders c5_state "AAPL").2.store).map
        (fun o => (o.status, o.filled_quantity)) = some (.filled, 100)
    ∧ (alookup "S" (match_orders c5_state "AAPL").2.store).map
        (fun o => (o.status, o.filled_quantity)) = some (.filled, 40)
    ∧ alookup "AAPL" (match_orders c5_state "AAPL").2.symbol_orders = some [] := by
  refine ⟨?_, ?_, ?_, ?_, ?_, ?_⟩ <;>
    simp +decide [match_orders, force_cleanup_filled_orders, cleanup_purges,
      lua_match_orders, lua_loop, symbol_order_blobs, sort_by_le, insort, buy_order_le,
      sell_order_le, alookup, alset, idx_add, idx_rem, set_add, store_set,
      idx_remove_all, force_fill, update_after_trade, adjust_account_balance,
      update_position, get_account, get_position, c5_state, c5_trade, mk_state,
      mk_order, ledger_ab] <;> norm_num

/-- C9, counterexample.  The claim asserts an unfilled `ioc` remainder is
cancelled and never rests in the book.  Submitting the spec's own IOC scenario
(sell 100@200 `ioc` against a best buy of 50@199, no cross) leaves the order
with status `open`, stored and listed in the symbol index next to the resting
buy, with no trade produced: time-in-force is never consulted. -/
theorem c9_ioc_counterexample :
    c9_order.tif = "ioc"
    ∧ (submit_order c9_state c9_order).1.status = .opn
    ∧ (alookup "S9" (submit_order c9_state c9_order).2.store).map Order.status
        = some .opn
    ∧ alookup "AAPL" (submit_order c9_state c9_order).2.symbol_orders
        = some ["B9", "S9"]
    ∧ (submit_order c9_state c9_order).2.trades = [] := by
  refine ⟨?_, ?_, ?_, ?_, ?_⟩ <;>
    simp +decide [submit_order, can_trade, get_account, get_position, match_orders,
      force_cleanup_filled_orders, cleanup_purges, lua_match_orders, lua_loop,
      symbol_order_blobs, sort_by_le, insort, buy_order_le, sell_order_le, alookup,
      alset, idx_add, idx_rem, set_add, store_set, idx_remove_all, force_fill,
      update_order_status, c9_state, c9_order, mk_state, mk_order, ledger_ab] <;>
    norm_num

/-- C9 (amended): the `tif` field of a submission is ignored by the engine; in
particular submission never cancels anything — an order submitted with status
`open` comes back `rejected` (risk gate), still `open` (possibly resting, as
in the IOC scenario of the counterexample), or `filled`, never `cancelled`. -/
theorem c9_ioc_amended (st : EngineState) (o : Order) (h : o.status = .opn) :
    (submit_order st o).1.status = .rejected ∨ (submit_order st o).1.status = .opn
      ∨ (submit_order st o).1.status = .filled := by
  unfold submit_order
  dsimp only
  by_cases hg : !(can_trade st.ledger o.account_id o.symbol o.side o.price o.quantity).1
  · rw [if_pos hg]; left; rfl
  · rw [if_neg hg]
    split
    · right; right; rfl
    · right; left; exact h

/-- Witness for the amended time-in-force theorem at the concrete IOC
scenario. -/
theorem c9_ioc_amended_witness :
    (submit_order c9_state c9_order).1.status = .rejected
      ∨ (submit_order c9_state c9_order).1.status = .opn
      ∨ (submit_order c9_state c9_order).1.status = .filled :=
  c9_ioc_amended c9_state c9_order (by decide)

/-- Every trade the Lua matching loop emits references two distinct accounts,
and its price and sell-order id come from one of the resting sell orders of
the loop's sell list. -/
theorem lua_loop_trade_facts (symbol : String) :
    ∀ (fuel : Nat) (st : EngineState) (buys sells : List Order) (t : Trade),
      t ∈ (lua_loop symbol fuel st buys sells).1 →
      t.buy_account_id ≠ t.sell_account_id
      ∧ ∃ s, s ∈ sells ∧ t.sell_order_id = s.id ∧ t.price = s.price := by
  intro fuel
  induction fuel with
  | zero => intro st buys sells t ht; simp [lua_loop] at ht
  | succ n ih =>
    intro st buys sells t ht
    cases buys with
    | nil => simp [lua_loop] at ht
    | cons b bs =>
      cases sells with
      | nil => simp [lua_loop] at ht
      | cons s ss =>
        simp only [lua_loop] at ht
        by_cases h1 : b.price < s.price
        · rw [if_pos h1] at ht; simp at ht
        · rw [if_neg h1] at ht
          by_cases h2 : b.account_id = s.account_id
          · rw [if_pos h2] at ht
            by_cases h3 : s.timestamp < b.timestamp
            · rw [if_pos h3] at ht
              exact ih st bs (s :: ss) t ht
            · rw [if_neg h3] at ht
              obtain ⟨hacc, x, hx, hid, hp⟩ := ih st (b :: bs) ss t ht
              exact ⟨hacc, x, List.mem_cons_of_mem s hx, hid, hp⟩
          · rw [if_neg h2] at ht
            by_cases hb : b.quantity ≤ b.filled_quantity +
                min (b.quantity - b.filled_quantity) (s.quantity - s.filled_quantity)
            · rw [if_pos hb] at ht
              by_cases hs : s.quantity ≤ s.filled_quantity +
                  min (b.quantity - b.filled_quantity) (s.quantity - s.filled_quantity)
              · rw [if_pos hs] at ht
                rcases List.mem_cons.mp ht with h | h
                · subst h
                  exact ⟨h2, s, List.mem_cons_self s ss, rfl, rfl⟩
                · obtain ⟨hacc, x, hx, hid, hp⟩ := ih _ bs ss t h
                  exact ⟨hacc, x, List.mem_cons_of_mem s hx, hid, hp⟩
              · rw [if_neg hs] at ht
                rcases List.mem_cons.mp ht with h | h
                · subst h
                  exact ⟨h2, s, List.mem_cons_self s ss, rfl, rfl⟩
                · obtain ⟨hacc, x, hx, hid, hp⟩ := ih _ bs _ t h
                  rcases List.mem_cons.mp hx with hxs | hxs
                  · subst hxs
                    exact ⟨hacc, s, List.mem_cons_self s ss, hid, hp⟩
                  · exact ⟨hacc, x, List.mem_cons_of_mem s hxs, hid, hp⟩
            · rw [if_neg hb] at ht
              rcases List.mem_cons.mp ht with h | h
              · subst h
                exact ⟨h2, s, List.mem_cons_self s ss, rfl, rfl⟩
              · obtain ⟨hacc, x, hx, hid, hp⟩ := ih _ _ ss t h
                exact ⟨hacc, x, List.mem_cons_of_mem s hx, hid, hp⟩

/-- Every trade the Python fallback's inner sell walk emits carries the fixed
buy order's id and account, references a sell order from the walked list with
a different account, and prints at the earlier order's limit price: the buy
price when the buy's timestamp is strictly smaller, the sell price otherwise. -/
theorem py_inner_trade_facts (symbol : String) (b : Order) :
    ∀ (sells : List Order) (f : ℚ) (t : Trade), t ∈ py_inner symbol b f sells →
      t.buy_order_id = b.id ∧ t.buy_account_id = b.account_id
      ∧ ∃ s, s ∈ sells ∧ t.sell_order_id = s.id ∧ t.sell_account_id = s.account_id
        ∧ b.account_id ≠ s.account_id
        ∧ t.price = (if b.timestamp < s.timestamp then b.price else s.price) := by
  intro sells
  induction sells with
  | nil => intro f t ht; simp [py_inner] at ht
  | cons s ss ih =>
    intro f t ht
    simp only [py_inner] at ht
    by_cases h1 : s.status = .filled
    · rw [if_pos h1] at ht
      obtain ⟨hb, hba, x, hx, hrest⟩ := ih f t ht
      exact ⟨hb, hba, x, List.mem_cons_of_mem s hx, hrest⟩
    · rw [if_neg h1] at ht
      by_cases h2 : b.account_id = s.account_id
      · rw [if_pos h2] at ht
        obtain ⟨hb, hba, x, hx, hrest⟩ := ih f t ht
        exact ⟨hb, hba, x, List.mem_cons_of_mem s hx, hrest⟩
      · rw [if_neg h2] at ht
        by_cases h3 : b.price < s.price
        · rw [if_pos h3] at ht; simp at ht
        · rw [if_neg h3] at ht
          by_cases h4 : b.quantity ≤ f +
              min (b.quantity - f) (s.quantity - s.filled_quantity)
          · rw [if_pos h4] at ht
            simp only [List.mem_singleton] at ht
            subst ht
            exact ⟨rfl, rfl, s, List.mem_cons_self s ss, rfl, rfl, h2, rfl⟩
          · rw [if_neg h4] at ht
            rcases List.mem_cons.mp ht with h | h
            · subst h
              exact ⟨rfl, rfl, s, List.mem_cons_self s ss, rfl, rfl, h2, rfl⟩
            · obtain ⟨hb, hba, x, hx, hrest⟩ := ih _ t h
              exact ⟨hb, hba, x, List.mem_cons_of_mem s hx, hrest⟩

/-- Lift of the inner-walk facts through the Python fallback's outer loop:
every trade it emits pairs a buy from the buy list with a sell from the sell
list, the accounts differ, and the price is the earlier order's limit price. -/
theorem py_match_trade_facts (symbol : String) :
    ∀ (buys sells : List Order) (t : Trade), t ∈ py_match symbol sells buys →
      ∃ b, b ∈ buys ∧ t.buy_order_id = b.id ∧ t.buy_account_id = b.account_id
      ∧ ∃ s, s ∈ sells ∧ t.sell_order_id = s.id ∧ t.sell_account_id = s.account_id
        ∧ b.account_id ≠ s.account_id
        ∧ t.price = (if b.timestamp < s.timestamp then b.price else s.price) := by
  intro buys
  induction buys with
  | nil => intro sells t ht; simp [py_match] at ht
  | cons b bs ih =>
    intro sells t ht
    simp only [py_match] at ht
    rcases List.mem_append.mp ht with h | h
    · by_cases hf : b.status = .filled
      · rw [if_pos hf] at h; simp at h
      · rw [if_neg hf] at h
        obtain ⟨hb, hba, hrest⟩ := py_inner_trade_facts symbol b sells b.filled_quantity t h
        exact ⟨b, List.mem_cons_self b bs, hb, hba, hrest⟩
    · obtain ⟨b', hb', hrest⟩ := ih sells t h
      exact ⟨b', List.mem_cons_of_mem b hb', hrest⟩

/-- Total quantity of an empty trade list. -/
theorem trades_qty_nil : trades_qty [] = 0 := by simp [trades_qty]

/-- Total quantity of a consed trade list. -/
theorem trades_qty_cons (t : Trade) (ts : List Trade) :
    trades_qty (t :: ts) = t.quantity + trades_qty ts := by simp [trades_qty]

/-- Total notional of a consed trade list. -/
theorem trades_pq_cons (t : Trade) (ts : List Trade) :
    trades_pq (t :: ts) = t.price * t.quantity + trades_pq ts := by simp [trades_pq]

/-- Available liquidity is never negative. -/
theorem avail_sum_nonneg : ∀ ms : List Order, 0 ≤ avail_sum ms := by
  intro ms
  induction ms with
  | nil => simp [avail_sum]
  | cons m ms ih =>
    have := le_max_right (m.quantity - m.filled_quantity) 0
    simp only [avail_sum, List.map_cons, List.sum_cons]
    have ih' : (0 : ℚ) ≤ (ms.map (fun m => max (m.quantity - m.filled_quantity) 0)).sum := ih
    linarith

/-- Available liquidity of a consed candidate list. -/
theorem avail_sum_cons (m : Order) (ms : List Order) :
    avail_sum (m :: ms) = max (m.quantity - m.filled_quantity) 0 + avail_sum ms := by
  simp [avail_sum]

/-- The walk appends exactly its returned trades to the state's trade log. -/
theorem market_walk_trades (oid account_id symbol : String) (is_buy : Bool)
    (orig_qty : ℚ) :
    ∀ (ms : List Order) (o : Order) (remaining : ℚ) (st : EngineState),
    (market_walk oid account_id symbol is_buy orig_qty o remaining st ms).2.2.1.trades
      = st.trades
        ++ (market_walk oid account_id symbol is_buy orig_qty o remaining st ms).2.2.2 := by
  intro ms
  induction ms with
  | nil => intro o remaining st; simp [market_walk]
  | cons m ms ih =>
    intro o remaining st
    simp only [market_walk]
    by_cases h1 : remaining ≤ 0
    · rw [if_pos h1]; simp
    · rw [if_neg h1]
      by_cases h2 : m.quantity - m.filled_quantity ≤ 0
      · rw [if_pos h2]; exact ih o remaining st
      · rw [if_neg h2]
        dsimp only
        rw [ih]
        simp [store_set]

/-- When the walked list contains no order of the market order's own account,
every trade the walk emits references two distinct accounts. -/
theorem market_walk_accounts (oid account_id symbol : String) (is_buy : Bool)
    (orig_qty : ℚ) :
    ∀ (ms : List Order) (o : Order) (remaining : ℚ) (st : EngineState) (t : Trade),
    (∀ m, m ∈ ms → m.account_id ≠ account_id) →
    t ∈ (market_walk oid account_id symbol is_buy orig_qty o remaining st ms).2.2.2 →
    t.buy_account_id ≠ t.sell_account_id := by
  intro ms
  induction ms with
  | nil => intro o remaining st t _ ht; simp [market_walk] at ht
  | cons m ms ih =>
    intro o remaining st t hm ht
    simp only [market_walk] at ht
    by_cases h1 : remaining ≤ 0
    · rw [if_pos h1] at ht; simp at ht
    · rw [if_neg h1] at ht
      by_cases h2 : m.quantity - m.filled_quantity ≤ 0
      · rw [if_pos h2] at ht
        exact ih o remaining st t (fun x hx => hm x (List.mem_cons_of_mem m hx)) ht
      · rw [if_neg h2] at ht
        rcases List.mem_cons.mp ht with h | h
        · subst h
          have hma := hm m (List.mem_cons_self m ms)
          cases is_buy
          · simpa using hma
          · simpa using Ne.symm hma
        · exact ih _ _ _ t (fun x hx => hm x (List.mem_cons_of_mem m hx)) h

/-- The walk's final order carries the initial filled quantity plus the total
quantity of the emitted trades. -/
theorem market_walk_filled (oid account_id symbol : String) (is_buy : Bool)
    (orig_qty : ℚ) :
    ∀ (ms : List Order) (o : Order) (remaining : ℚ) (st : EngineState),
    (market_walk oid account_id symbol is_buy orig_qty o remaining st ms).1.filled_quantity
      = o.filled_quantity
        + trades_qty (market_walk oid account_id symbol is_buy orig_qty
            o remaining st ms).2.2.2 := by
  intro ms
  induction ms with
  | nil => intro o remaining st; simp [market_walk, trades_qty]
  | cons m ms ih =>
    intro o remaining st
    simp only [market_walk]
    by_cases h1 : remaining ≤ 0
    · rw [if_pos h1]; simp [trades_qty]
    · rw [if_neg h1]
      by_cases h2 : m.quantity - m.filled_quantity ≤ 0
      · rw [if_pos h2]; exact ih o remaining st
      · rw [if_neg h2]
        dsimp only
        rw [ih, market_fill_update_filled, trades_qty_cons]
        dsimp only
        ring

/-- The walk's final remaining quantity is the initial one minus the total
quantity of the emitted trades. -/
theorem market_walk_remaining (oid account_id symbol : String) (is_buy : Bool)
    (orig_qty : ℚ) :
    ∀ (ms : List Order) (o : Order) (remaining : ℚ) (st : EngineState),
    (market_walk oid account_id symbol is_buy orig_qty o remaining st ms).2.1
      = remaining
        - trades_qty (market_walk oid account_id symbol is_buy orig_qty
            o remaining st ms).2.2.2 := by
  intro ms
  induction ms with
  | nil => intro o remaining st; simp [market_walk, trades_qty]
  | cons m ms ih =>
    intro o remaining st
    simp only [market_walk]
    by_cases h1 : remaining ≤ 0
    · rw [if_pos h1]; simp [trades_qty]
    · rw [if_neg h1]
      by_cases h2 : m.quantity - m.filled_quantity ≤ 0
      · rw [if_pos h2]; exact ih o remaining st
      · rw [if_neg h2]
        dsimp only
        rw [ih, trades_qty_cons]
        dsimp only
        ring

/-- A walk that emits no trade changes nothing: the order, the remaining
quantity and the state all come back untouched. -/
theorem market_walk_no_trades (oid account_id symbol : String) (is_buy : Bool)
    (orig_qty : ℚ) :
    ∀ (ms : List Order) (o : Order) (remaining : ℚ) (st : EngineState),
    (market_walk oid account_id symbol is_buy orig_qty o remaining st ms).2.2.2 = [] →
    (market_walk oid account_id symbol is_buy orig_qty o remaining st ms).1 = o
    ∧ (market_walk oid account_id symbol is_buy orig_qty o remaining st ms).2.1 = remaining
    ∧ (market_walk oid account_id symbol is_buy orig_qty o remaining st ms).2.2.1 = st := by
  intro ms
  induction ms with
  | nil => intro o remaining st _; simp [market_walk]
  | cons m ms ih =>
    intro o remaining st h
    simp only [market_walk] at h ⊢
    by_cases h1 : remaining ≤ 0
    · rw [if_pos h1] at h ⊢; simp
    · rw [if_neg h1] at h ⊢
      by_cases h2 : m.quantity - m.filled_quantity ≤ 0
      · rw [if_pos h2] at h ⊢; exact ih o remaining st h
      · rw [if_neg h2] at h
        simp at h

/-- The walk consumes exactly `min remaining (available liquidity)`: it keeps
filling from the list until the quantity is exhausted or no liquidity is left. -/
theorem market_walk_consumed (oid account_id symbol : String) (is_buy : Bool)
    (orig_qty : ℚ) :
    ∀ (ms : List Order) (o : Order) (remaining : ℚ) (st : EngineState),
    0 ≤ remaining →
    trades_qty (market_walk oid account_id symbol is_buy orig_qty o remaining st ms).2.2.2
      = min remaining (avail_sum ms) := by
  intro ms
  induction ms with
  | nil =>
    intro o remaining st h
    simp [market_walk, trades_qty, avail_sum, min_eq_right h]
  | cons m ms ih =>
    intro o remaining st h
    simp only [market_walk]
    by_cases h1 : remaining ≤ 0
    · rw [if_pos h1]
      have hr : remaining = 0 := le_antisymm h1 h
      rw [trades_qty_nil, hr, min_eq_left (avail_sum_nonneg (m :: ms))]
    · rw [if_neg h1]
      by_cases h2 : m.quantity - m.filled_quantity ≤ 0
      · rw [if_pos h2, ih o remaining st h, avail_sum_cons, max_eq_right h2, zero_add]
      · rw [if_neg h2]
        dsimp only
        have havail : 0 < m.quantity - m.filled_quantity := lt_of_not_le h2
        have hS := avail_sum_nonneg ms
        have hmq : min remaining (m.quantity - m.filled_quantity) ≤ remaining :=
          min_le_left _ _
        have h0 : (0 : ℚ) ≤ remaining - min remaining (m.quantity - m.filled_quantity) := by
          linarith
        rw [trades_qty_cons, ih _ _ _ h0, avail_sum_cons, max_eq_left (le_of_lt havail)]
        rcases le_total remaining (m.quantity - m.filled_quantity) with hc | hc
        · rw [min_eq_left hc, sub_self, min_eq_left hS,
            min_eq_left (by linarith : remaining ≤ m.quantity - m.filled_quantity
              + avail_sum ms)]
          ring
        · rw [min_eq_right hc]
          rcases le_total (remaining - (m.quantity - m.filled_quantity)) (avail_sum ms)
            with hd | hd
          · rw [min_eq_left hd, min_eq_left (by linarith : remaining ≤
              m.quantity - m.filled_quantity + avail_sum ms)]
            ring
          · rw [min_eq_right hd, min_eq_right (by linarith : m.quantity
              - m.filled_quantity + avail_sum ms ≤ remaining)]

/-- Incremental-VWAP invariant of the walk: starting from a recorded execution
price that is the volume-weighted average `e` of `f > 0` already-filled units,
the walk ends with the volume-weighted average over those units and all newly
emitted fills. -/
theorem market_walk_exec_some (oid account_id symbol : String) (is_buy : Bool)
    (orig_qty : ℚ) :
    ∀ (ms : List Order) (o : Order) (remaining : ℚ) (st : EngineState) (e f : ℚ),
    o.execution_price = some e → o.filled_quantity = f → 0 < f →
    (market_walk oid account_id symbol is_buy orig_qty o remaining st ms).1.execution_price
      = some ((e * f
          + trades_pq (market_walk oid account_id symbol is_buy orig_qty
              o remaining st ms).2.2.2)
        / (f + trades_qty (market_walk oid account_id symbol is_buy orig_qty
              o remaining st ms).2.2.2)) := by
  intro ms
  induction ms with
  | nil =>
    intro o remaining st e f he hf hfpos
    simp only [market_walk, trades_pq, trades_qty, List.map_nil, List.sum_nil,
      add_zero, he]
    rw [mul_div_cancel_right₀ e (ne_of_gt hfpos)]
  | cons m ms ih =>
    intro o remaining st e f he hf hfpos
    simp only [market_walk]
    by_cases h1 : remaining ≤ 0
    · rw [if_pos h1]
      simp only [trades_pq, trades_qty, List.map_nil, List.sum_nil, add_zero, he]
      rw [mul_div_cancel_right₀ e (ne_of_gt hfpos)]
    · rw [if_neg h1]
      by_cases h2 : m.quantity - m.filled_quantity ≤ 0
      · rw [if_pos h2]; exact ih o remaining st e f he hf hfpos
      · rw [if_neg h2]
        dsimp only
        have hmq : 0 < min remaining (m.quantity - m.filled_quantity) :=
          lt_min (lt_of_not_le h1) (lt_of_not_le h2)
        rw [ih _ _ _
          ((e * (o.filled_quantity + min remaining (m.quantity - m.filled_quantity)
              - min remaining (m.quantity - m.filled_quantity))
            + m.price * min remaining (m.quantity - m.filled_quantity))
           / (o.filled_quantity + min remaining (m.quantity - m.filled_quantity)))
          (o.filled_quantity + min remaining (m.quantity - m.filled_quantity))
          (market_fill_update_exec_some o orig_qty m.price _ e he)
          (market_fill_update_filled o orig_qty m.price _)
          (by rw [hf]; linarith), trades_pq_cons, trades_qty_cons]
        dsimp only
        have hden : o.filled_quantity + min remaining (m.quantity - m.filled_quantity) ≠ 0 := by
          rw [hf]; positivity
        rw [div_mul_cancel₀ _ hden, hf]
        ring_nf

/-- VWAP of a fresh market order: starting with no recorded execution price
and nothing filled, the walk either emits no trade and leaves the execution
price unset, or records exactly the volume-weighted average price of its
fills. -/
theorem market_walk_exec_none (oid account_id symbol : String) (is_buy : Bool)
    (orig_qty : ℚ) :
    ∀ (ms : List Order) (o : Order) (remaining : ℚ) (st : EngineState),
    o.execution_price = none → o.filled_quantity = 0 →
    ((market_walk oid account_id symbol is_buy orig_qty o remaining st ms).2.2.2 = [] →
      (market_walk oid account_id symbol is_buy orig_qty
        o remaining st ms).1.execution_price = none)
    ∧ ((market_walk oid account_id symbol is_buy orig_qty o remaining st ms).2.2.2 ≠ [] →
      (market_walk oid account_id symbol is_buy orig_qty
          o remaining st ms).1.execution_price
        = some (trades_pq (market_walk oid account_id symbol is_buy orig_qty
              o remaining st ms).2.2.2
            / trades_qty (market_walk oid account_id symbol is_buy orig_qty
              o remaining st ms).2.2.2)) := by
  intro ms
  induction ms with
  | nil =>
    intro o remaining st he hf
    exact ⟨fun _ => by simp [market_walk, he], fun h => absurd (by simp [market_walk]) h⟩
  | cons m ms ih =>
    intro o remaining st he hf
    simp only [market_walk]
    by_cases h1 : remaining ≤ 0
    · rw [if_pos h1]
      exact ⟨fun _ => he, fun h => absurd rfl h⟩
    · rw [if_neg h1]
      by_cases h2 : m.quantity - m.filled_quantity ≤ 0
      · rw [if_pos h2]; exact ih o remaining st he hf
      · rw [if_neg h2]
        dsimp only
        have hmq : 0 < min remaining (m.quantity - m.filled_quantity) :=
          lt_min (lt_of_not_le h1) (lt_of_not_le h2)
        constructor
        · intro h; simp at h
        · intro _
          rw [market_walk_exec_some oid account_id symbol is_buy orig_qty ms _ _ _
            m.price (o.filled_quantity + min remaining (m.quantity - m.filled_quantity))
            (market_fill_update_exec_none o orig_qty m.price _ he)
            (market_fill_update_filled o orig_qty m.price _)
            (by rw [hf]; simpa using hmq), trades_pq_cons, trades_qty_cons]
          dsimp only
          rw [hf, zero_add]

/-- Every order of the candidate list walked by `process_market_order` belongs
to an account different from the market order's. -/
theorem mem_market_candidates (st : EngineState) (o m : Order)
    (h : m ∈ market_candidates st o) : m.account_id ≠ o.account_id := by
  unfold market_candidates at h
  by_cases hb : o.side = .buy <;>
    [rw [if_pos hb] at h; rw [if_neg hb] at h] <;>
  · rw [mem_sort_by_le] at h
    have hp := (List.mem_filter.mp h).2
    simp at hp
    exact hp.2.2

/-- Processing a market order only appends trades, and every appended trade
references two distinct accounts. -/
theorem process_market_order_new_trades (st : EngineState) (oid : String)
    (r : Order × EngineState) (h : process_market_order st oid = some r) :
    ∀ t, t ∈ r.2.trades → t ∈ st.trades ∨ t.buy_account_id ≠ t.sell_account_id := by
  unfold process_market_order at h
  cases ho : alookup oid st.store with
  | none => rw [ho] at h; simp at h
  | some o =>
    rw [ho] at h
    dsimp only at h
    by_cases h1 : o.order_type ≠ "market"
    · rw [if_pos h1] at h
      cases h; exact fun t ht => Or.inl ht
    · rw [if_neg h1] at h
      by_cases h2 : o.quantity ≤ 0
      · rw [if_pos h2] at h
        cases h; exact fun t ht => Or.inl ht
      · rw [if_neg h2] at h
        by_cases h3 : (market_candidates st o).isEmpty
        · rw [if_pos h3] at h
          cases h; exact fun t ht => Or.inl ht
        · rw [if_neg h3] at h
          have hwt := market_walk_trades oid o.account_id o.symbol (o.side = .buy)
            o.quantity (market_candidates st o) o o.quantity st
          have hwa := fun t ht => market_walk_accounts oid o.account_id o.symbol
            (o.side = .buy) o.quantity (market_candidates st o) o o.quantity st t
            (fun m hm => mem_market_candidates st o m hm) ht
          have hsplit : ∀ t, t ∈ (market_walk oid o.account_id o.symbol (o.side = .buy)
              o.quantity o o.quantity st (market_candidates st o)).2.2.1.trades →
              t ∈ st.trades ∨ t.buy_account_id ≠ t.sell_account_id := by
            intro t ht
            rw [hwt] at ht
            rcases List.mem_append.mp ht with hl | hr
            · exact Or.inl hl
            · exact Or.inr (hwa t hr)
          by_cases h4 : 0 < (market_walk oid o.account_id o.symbol (o.side = .buy)
              o.quantity o o.quantity st (market_candidates st o)).2.1 ∧
              0 < (market_walk oid o.account_id o.symbol (o.side = .buy)
              o.quantity o o.quantity st (market_candidates st o)).1.filled_quantity
          · rw [if_pos h4] at h
            cases h; exact fun t ht => hsplit t (by simpa [store_set] using ht)
          · rw [if_neg h4] at h
            by_cases h5 : 0 < (market_walk oid o.account_id o.symbol (o.side = .buy)
                o.quantity o o.quantity st (market_candidates st o)).2.1
            · rw [if_pos h5] at h
              cases h; exact fun t ht => hsplit t (by simpa [store_set] using ht)
            · rw [if_neg h5] at h
              cases h; exact fun t ht => hsplit t ht

/-- C1, counterexample.  The claim asserts every crossing match prints at the
limit price of the earlier order (maker price).  In `c1_state` the buy at 101
(timestamp 1) is earlier than the sell at 100 (timestamp 2), so the claim
requires a print at 101 — but the Lua matching script prints the trade at the
sell price 100 unconditionally. -/
theorem c1_lua_price_counterexample :
    (lua_match_orders c1_state "AAPL").1 = [c1_trade]
    ∧ c1_buy.timestamp < c1_sell.timestamp
    ∧ c1_trade.price = c1_sell.price
    ∧ c1_trade.price ≠ c1_buy.price := by
  refine ⟨?_, by norm_num [c1_buy, c1_sell, mk_order], by norm_num [c1_trade, c1_sell,
    mk_order], by norm_num [c1_trade, c1_buy, mk_order]⟩
  simp +decide [lua_match_orders, lua_loop, symbol_order_blobs, sort_by_le, insort,
    buy_order_le, sell_order_le, alookup, alset, c1_state, c1_buy, c1_sell, mk_state,
    mk_order, ledger_ab, c1_trade, store_set, idx_remove_all, idx_rem]

/-- C1 (amended): the two matching implementations price trades differently.
The Lua script — the engine's primary path — prints every trade at the
referenced resting sell order's limit price, regardless of which side is
earlier; only the Python fallback prints at the earlier order's price, using
the buy price exactly when the buy's timestamp is strictly smaller than the
sell's and the sell price otherwise. -/
theorem c1_execution_price_amended :
    (∀ (symbol : String) (fuel : Nat) (st : EngineState) (buys sells : List Order)
      (t : Trade), t ∈ (lua_loop symbol fuel st buys sells).1 →
      ∃ s, s ∈ sells ∧ t.sell_order_id = s.id ∧ t.price = s.price)
    ∧ (∀ (symbol : String) (buys sells : List Order) (t : Trade),
      t ∈ py_match symbol sells buys →
      ∃ b s, b ∈ buys ∧ s ∈ sells ∧ t.buy_order_id = b.id ∧ t.sell_order_id = s.id
        ∧ t.price = (if b.timestamp < s.timestamp then b.price else s.price)) := by
  constructor
  · intro symbol fuel st buys sells t ht
    exact (lua_loop_trade_facts symbol fuel st buys sells t ht).2
  · intro symbol buys sells t ht
    obtain ⟨b, hbmem, hbid, _, s, hsmem, hsid, _, _, hp⟩ :=
      py_match_trade_facts symbol buys sells t ht
    exact ⟨b, s, hbmem, hsmem, hbid, hsid, hp⟩

/-- Witness for the amended execution-price theorem: the Lua loop on the
crossing pair of `c1_state` prices its trade from the resting sell, and the
Python fallback on the self-trade book prices its trade by the
earlier-timestamp rule. -/
theorem c1_execution_price_amended_witness :
    (∃ s, s ∈ [c1_sell] ∧ c1_trade.sell_order_id = s.id ∧ c1_trade.price = s.price)
    ∧ (∃ b s, b ∈ [c4_buy] ∧ s ∈ [c4_sell_own, c4_sell_other]
        ∧ c4_trade.buy_order_id = b.id ∧ c4_trade.sell_order_id = s.id
        ∧ c4_trade.price = (if b.timestamp < s.timestamp then b.price else s.price)) := by
  constructor
  · refine c1_execution_price_amended.1 "AAPL" 2 c1_state [c1_buy] [c1_sell] c1_trade ?_
    simp +decide [lua_loop, c1_state, c1_buy, c1_sell, mk_state, mk_order, ledger_ab,
      c1_trade, store_set, idx_remove_all, idx_rem, alookup, alset]
  · refine c1_execution_price_amended.2 "AAPL" [c4_buy] [c4_sell_own, c4_sell_other]
      c4_trade ?_
    simp +decide [py_match, py_inner, c4_buy, c4_sell_own, c4_sell_other, mk_order,
      c4_trade]

/-- C4, counterexample.  The claim asserts that whenever a same-account pair
is encountered during matching, the newer order (higher timestamp) is skipped.
In `c4_state` the Python fallback encounters the crossing same-account pair
(`B1` buy at 101, timestamp 10; `S1` sell at 100, timestamp 5) in which the
buy is the newer order — yet the fallback passes over the older sell and keeps
matching the newer buy, which trades with `B`'s sell `S2`. -/
theorem c4_self_trade_counterexample :
    c4_buy.account_id = c4_sell_own.account_id
    ∧ c4_sell_own.price ≤ c4_buy.price
    ∧ c4_sell_own.timestamp < c4_buy.timestamp
    ∧ match_orders_python c4_state "AAPL" = [c4_trade]
    ∧ c4_trade.buy_order_id = c4_buy.id := by
  refine ⟨by decide, by norm_num [c4_buy, c4_sell_own, mk_order],
    by norm_num [c4_buy, c4_sell_own, mk_order], ?_, by decide⟩
  simp +decide [match_orders_python, py_match, py_inner, symbol_order_blobs,
    sort_by_le, insort, buy_order_le, sell_order_le, alookup, c4_state, c4_buy,
    c4_sell_own, c4_sell_other, mk_state, mk_order, ledger_ab, c4_trade]

/-- C4 (amended): no trade ever pairs an account with itself — in the Lua
script, in the Python fallback and in the market-order path alike.  The
skip-the-newer rule holds only in the Lua script: when its top pair crosses
with equal accounts it passes over the newer order and continues; the Python
fallback instead always passes over the resting sell of such a pair,
whichever side is newer (see counterexample). -/
theorem c4_self_trade_amended :
    (∀ (symbol : String) (fuel : Nat) (st : EngineState) (buys sells : List Order)
      (t : Trade), t ∈ (lua_loop symbol fuel st buys sells).1 →
      t.buy_account_id ≠ t.sell_account_id)
    ∧ (∀ (symbol : String) (buys sells : List Order) (t : Trade),
      t ∈ py_match symbol sells buys → t.buy_account_id ≠ t.sell_account_id)
    ∧ (∀ (symbol : String) (fuel : Nat) (st : EngineState) (b s : Order)
      (bs ss : List Order), ¬ b.price < s.price → b.account_id = s.account_id →
      (s.timestamp < b.timestamp →
        lua_loop symbol (fuel + 1) st (b :: bs) (s :: ss)
          = lua_loop symbol fuel st bs (s :: ss))
      ∧ (¬ s.timestamp < b.timestamp →
        lua_loop symbol (fuel + 1) st (b :: bs) (s :: ss)
          = lua_loop symbol fuel st (b :: bs) ss))
    ∧ (∀ (st : EngineState) (oid : String) (r : Order × EngineState) (t : Trade),
      process_market_order st oid = some r → t ∈ r.2.trades →
      t ∈ st.trades ∨ t.buy_account_id ≠ t.sell_account_id) := by
  refine ⟨?_, ?_, ?_, ?_⟩
  · intro symbol fuel st buys sells t ht
    exact (lua_loop_trade_facts symbol fuel st buys sells t ht).1
  · intro symbol buys sells t ht
    obtain ⟨b, _, _, hba, s, _, _, hsa, hne, _⟩ :=
      py_match_trade_facts symbol buys sells t ht
    rw [hba, hsa]; exact hne
  · intro symbol fuel st b s bs ss h1 h2
    constructor <;> intro h3 <;> simp [lua_loop, h1, h2, h3]
  · intro st oid r t h ht
    exact process_market_order_new_trades st oid r h t ht

/-- Witness for the amended self-trade theorem: the Lua trade of `c1_state`
pairs distinct accounts, and on a crossing same-account top pair with the buy
newer the Lua loop drops the buy and continues with the remaining orders. -/
theorem c4_self_trade_amended_witness :
    c1_trade.buy_account_id ≠ c1_trade.sell_account_id
    ∧ lua_loop "AAPL" 1 c1_state [c4_buy] [c4_sell_own]
        = lua_loop "AAPL" 0 c1_state [] [c4_sell_own] := by
  constructor
  · refine c4_self_trade_amended.1 "AAPL" 2 c1_state [c1_buy] [c1_sell] c1_trade ?_
    simp +decide [lua_loop, c1_state, c1_buy, c1_sell, mk_state, mk_order, ledger_ab,
      c1_trade, store_set, idx_remove_all, idx_rem, alookup, alset]
  · exact (c4_self_trade_amended.2.2.1 "AAPL" 0 c1_state c4_buy c4_sell_own [] []
      (by norm_num [c4_buy, c4_sell_own, mk_order])
      (by norm_num [c4_buy, c4_sell_own, mk_order])).1
      (by norm_num [c4_buy, c4_sell_own, mk_order])

/-- C8: a market order walks the opposite side of the book from the best price
outward, consuming `min(quantity, available liquidity)`; when nothing fills,
its status becomes `pending`; and the execution price recorded on it is the
volume-weighted average price over its fills — on the spec's literal example
(resting sells 30@150, 50@151, 20@152 against a buy market order for 100) the
three fills print at 150, 151 and 152 and the recorded execution price is
150.9. -/
theorem c8_market_order_correct :
    (∀ (st : EngineState) (oid : String) (o o' : Order) (st' : EngineState),
      alookup oid st.store = some o → o.order_type = "market" → 0 < o.quantity →
      o.filled_quantity = 0 →
      process_market_order st oid = some (o', st') →
      st'.trades = st.trades → o'.status = .pending)
    ∧ (∀ (st : EngineState) (oid : String) (o o' : Order) (st' : EngineState)
        (ts : List Trade),
      alookup oid st.store = some o → o.order_type = "market" → 0 < o.quantity →
      o.filled_quantity = 0 → o.execution_price = none →
      process_market_order st oid = some (o', st') →
      st'.trades = st.trades ++ ts →
      o'.filled_quantity = min o.quantity (avail_sum (market_candidates st o))
      ∧ (ts ≠ [] → o'.execution_price = some (trades_pq ts / trades_qty ts)))
    ∧ (process_market_order c8_state "M1").map
        (fun r => (r.1.status, r.1.filled_quantity, r.1.execution_price))
        = some (.filled, 100, some (1509 / 10))
    ∧ (process_market_order c8_state "M1").map (fun r => r.2.trades)
        = some c8_expected_trades := by
  refine ⟨?_, ?_, ?_, ?_⟩
  · intro st oid o o' st' ho hm hq hf h htr
    unfold process_market_order at h
    rw [ho] at h
    dsimp only at h
    rw [if_neg (by simp [hm])] at h
    rw [if_neg (not_le.mpr hq)] at h
    by_cases h3 : (market_candidates st o).isEmpty
    · rw [if_pos h3] at h
      simp only [Option.some.injEq, Prod.mk.injEq] at h
      rw [← h.1]
    · rw [if_neg h3] at h
      have hwt := market_walk_trades oid o.account_id o.symbol (o.side = .buy)
        o.quantity (market_candidates st o) o o.quantity st
      by_cases h4 : 0 < (market_walk oid o.account_id o.symbol (o.side = .buy)
          o.quantity o o.quantity st (market_candidates st o)).2.1 ∧
          0 < (market_walk oid o.account_id o.symbol (o.side = .buy)
          o.quantity o o.quantity st (market_candidates st o)).1.filled_quantity
      · rw [if_pos h4] at h
        simp only [Option.some.injEq, Prod.mk.injEq] at h
        have hts : (market_walk oid o.account_id o.symbol (o.side = .buy)
            o.quantity o o.quantity st (market_candidates st o)).2.2.2 = [] := by
          have : st.trades ++ (market_walk oid o.account_id o.symbol (o.side = .buy)
              o.quantity o o.quantity st (market_candidates st o)).2.2.2
              = st.trades ++ [] := by
            rw [List.append_nil, ← hwt, ← htr, ← h.2]
            rfl
          exact List.append_cancel_left this
        have hno := market_walk_no_trades oid o.account_id o.symbol (o.side = .buy)
          o.quantity (market_candidates st o) o o.quantity st hts
        exact absurd h4 (by rw [hno.1, hf]; simp)
      · rw [if_neg h4] at h
        by_cases h5 : 0 < (market_walk oid o.account_id o.symbol (o.side = .buy)
            o.quantity o o.quantity st (market_candidates st o)).2.1
        · rw [if_pos h5] at h
          simp only [Option.some.injEq, Prod.mk.injEq] at h
          rw [← h.1]
        · rw [if_neg h5] at h
          simp only [Option.some.injEq, Prod.mk.injEq] at h
          have hts : (market_walk oid o.account_id o.symbol (o.side = .buy)
              o.quantity o o.quantity st (market_candidates st o)).2.2.2 = [] := by
            have : st.trades ++ (market_walk oid o.account_id o.symbol (o.side = .buy)
                o.quantity o o.quantity st (market_candidates st o)).2.2.2
                = st.trades ++ [] := by
              rw [List.append_nil, ← hwt, ← htr, ← h.2]
            exact List.append_cancel_left this
          have hno := market_walk_no_trades oid o.account_id o.symbol (o.side = .buy)
            o.quantity (market_candidates st o) o o.quantity st hts
          exact absurd (by rw [hno.2.1]; exact hq) h5
  · intro st oid o o' st' ts ho hm hq hf he h htr
    unfold process_market_order at h
    rw [ho] at h
    dsimp only at h
    rw [if_neg (by simp [hm])] at h
    rw [if_neg (not_le.mpr hq)] at h
    by_cases h3 : (market_candidates st o).isEmpty
    · rw [if_pos h3] at h
      simp only [Option.some.injEq, Prod.mk.injEq] at h
      have hcand : market_candidates st o = [] := List.isEmpty_iff.mp h3
      have hts : ts = [] := by
        have : st.trades ++ ts = st.trades ++ [] := by
          rw [List.append_nil, ← htr, ← h.2]
          rfl
        exact List.append_cancel_left this
      constructor
      · rw [← h.1, hcand]
        simp [avail_sum, hf, min_eq_right (le_of_lt hq)]
      · intro hne; exact absurd hts hne
    · rw [if_neg h3] at h
      have hwt := market_walk_trades oid o.account_id o.symbol (o.side = .buy)
        o.quantity (market_candidates st o) o o.quantity st
      have hwf := market_walk_filled oid o.account_id o.symbol (o.side = .buy)
        o.quantity (market_candidates st o) o o.quantity st
      have hwc := market_walk_consumed oid o.account_id o.symbol (o.side = .buy)
        o.quantity (market_candidates st o) o o.quantity st (le_of_lt hq)
      have hwe := market_walk_exec_none oid o.account_id o.symbol (o.side = .buy)
        o.quantity (market_candidates st o) o o.quantity st he hf
      have key : ∀ o2 st2, o' = o2 → st' = st2 →
          o2.filled_quantity = (market_walk oid o.account_id o.symbol (o.side = .buy)
            o.quantity o o.quantity st (market_candidates st o)).1.filled_quantity →
          o2.execution_price = (market_walk oid o.account_id o.symbol (o.side = .buy)
            o.quantity o o.quantity st (market_candidates st o)).1.execution_price →
          st2.trades = (market_walk oid o.account_id o.symbol (o.side = .buy)
            o.quantity o o.quantity st (market_candidates st o)).2.2.1.trades →
          o'.filled_quantity = min o.quantity (avail_sum (market_candidates st o))
          ∧ (ts ≠ [] → o'.execution_price = some (trades_pq ts / trades_qty ts)) := by
        intro o2 st2 ho2 hst2 hfill hexec htrades
        have hts : ts = (market_walk oid o.account_id o.symbol (o.side = .buy)
            o.quantity o o.quantity st (market_candidates st o)).2.2.2 := by
          have happ : st.trades ++ ts = st.trades ++ (market_walk oid o.account_id
              o.symbol (o.side = .buy) o.quantity o o.quantity st
              (market_candidates st o)).2.2.2 := by
            rw [← htr, ← hwt, hst2]
            exact htrades
          exact List.append_cancel_left happ
        constructor
        · rw [ho2, hfill, hwf, hwc, hf, zero_add]
        · intro hne
          rw [ho2, hexec, hwe.2 (by rw [← hts]; exact hne), ← hts]
      by_cases h4 : 0 < (market_walk oid o.account_id o.symbol (o.side = .buy)
          o.quantity o o.quantity st (market_candidates st o)).2.1 ∧
          0 < (market_walk oid o.account_id o.symbol (o.side = .buy)
          o.quantity o o.quantity st (market_candidates st o)).1.filled_quantity
      · rw [if_pos h4] at h
        simp only [Option.some.injEq, Prod.mk.injEq] at h
        exact key _ _ h.1.symm h.2.symm rfl rfl rfl
      · rw [if_neg h4] at h
        by_cases h5 : 0 < (market_walk oid o.account_id o.symbol (o.side = .buy)
            o.quantity o o.quantity st (market_candidates st o)).2.1
        · rw [if_pos h5] at h
          simp only [Option.some.injEq, Prod.mk.injEq] at h
          exact key _ _ h.1.symm h.2.symm rfl rfl rfl
        · rw [if_neg h5] at h
          simp only [Option.some.injEq, Prod.mk.injEq] at h
          exact key _ _ h.1.symm h.2.symm rfl rfl rfl
  · simp +decide [process_market_order, market_candidates, market_walk,
      market_fill_update, symbol_order_blobs, sort_by_le, insort, alookup, alset,
      c8_state, c8_market_order, mk_state, mk_order, ledger_ab, store_set]
    norm_num
  · simp +decide [process_market_order, market_candidates, market_walk,
      market_fill_update, symbol_order_blobs, sort_by_le, insort, alookup, alset,
      c8_state, c8_market_order, mk_state, mk_order, ledger_ab, store_set,
      c8_expected_trades]
    norm_num
    exact ⟨_, _, ⟨rfl, rfl⟩, rfl⟩

/-- A buy market order resting alone in an empty book (no liquidity). -/
def c8_pending_order : Order :=
  { mk_order "M2" "A" "AAPL" .buy 0 100 1 with order_type := "market" }

/-- State for the no-liquidity market-order scenario. -/
def c8_pending_state : EngineState := mk_state "AAPL" [c8_pending_order] ledger_ab

/-- Witness for the market-order theorem: processing the no-liquidity market
order marks it `pending`. -/
theorem c8_market_order_correct_witness :
    ({ c8_pending_order with status := .pending } : Order).status = .pending :=
  c8_market_order_correct.1 c8_pending_state "M2" c8_pending_order
    { c8_pending_order with status := .pending }
    (store_set c8_pending_state "M2" { c8_pending_order with status := .pending })
    (by decide) rfl (by decide) (by decide)
    (by simp +decide [process_market_order, market_candidates, symbol_order_blobs,
      sort_by_le, insort, alookup, alset, c8_pending_state, c8_pending_order,
      mk_state, mk_order, ledger_ab, store_set])
    rfl
